import Mathlib

/-!
# Cosmos header sync and ICS-23 proof ops of the cross-chain relay

A shallow embedding of `native/service/header_sync/cosmos/header_sync.go` and
`native/service/cross_chain_manager/cosmos/proof.go`, with the properties of the
specification stated and proved over it.

Conventions.
* Byte strings are lists of naturals; `bytes.Equal` is list equality.
* Go `int64` values are integers; the additions and multiplications the handlers
  perform themselves are reduced with `wrap64`.
* Functions of the Tendermint, Amino and ICS-23 libraries are fields of the
  structures `Tendermint` and `Ics23`; every theorem holds for all of them.
* The storage helpers of the package (`GetHeaderByHeight`, `putHeader`,
  `KeyHeights`, ...) are modelled from the specification.
-/

namespace Poly

/-! ## Machine integers -/

/-- Two's-complement reduction of an integer to the range of a Go `int64`. -/
def wrap64 (x : Int) : Int :=
  (x + 2 ^ 63) % 2 ^ 64 - 2 ^ 63

/-- The range of a Go `int64`. -/
def IsInt64 (x : Int) : Prop :=
  -(2 ^ 63) ≤ x ∧ x < 2 ^ 63

instance (x : Int) : Decidable (IsInt64 x) := by
  unfold IsInt64; infer_instance

/-- The quorum test of `SyncBlockHeader`, line 180:
`talliedVotingPower <= valset.TotalVotingPower()*2/3` rejects. The product wraps as an
`int64` product does and `/` is Go's truncating division. Returns `true` when the header
is accepted. -/
def quorumAccepts (tallied total : Int) : Bool :=
  !(decide (tallied ≤ Int.tdiv (wrap64 (total * 2)) 3))

/-! ## Data model (Tendermint types carried by a `CosmosHeader`) -/

/-- Byte strings. -/
abbrev Bytes := List Nat

/-- Tendermint `types.PartSetHeader`. -/
structure PartSetHeader where
  Total : Int := 0
  Hash : Bytes := []
deriving DecidableEq

/-- Tendermint `types.BlockID`. -/
structure BlockID where
  Hash : Bytes := []
  PartsHeader : PartSetHeader := {}
deriving DecidableEq

/-- Go `PartSetHeader.Equals`: equal totals and equal hashes. -/
def PartSetHeader.Equals (psh other : PartSetHeader) : Bool :=
  decide (psh.Total = other.Total) && decide (psh.Hash = other.Hash)

/-- Go `BlockID.Equals`: equal hashes and equal part-set headers. -/
def BlockID.Equals (blockID other : BlockID) : Bool :=
  decide (blockID.Hash = other.Hash) && blockID.PartsHeader.Equals other.PartsHeader

/-- The three public-key variants registered by `newCDC`. -/
inductive PubKey where
  | ed25519 (key : Bytes)
  | secp256k1 (key : Bytes)
  | multisigThreshold (k : Nat) (pubkeys : List Bytes)
deriving DecidableEq

/-- Tendermint `types.Vote`, the element type of `Commit.Precommits`. -/
structure Vote where
  MsgType : Nat := 2
  Height : Int := 0
  Round : Int := 0
  BlockID : BlockID := {}
  Timestamp : Int := 0
  ValidatorAddress : Bytes := []
  ValidatorIndex : Int := 0
  Signature : Bytes := []
deriving DecidableEq

/-- Tendermint `types.Commit`: a block id and one optional precommit per validator
position (`nil` entries are `none`). -/
structure Commit where
  BlockID : BlockID := {}
  Precommits : List (Option Vote) := []
deriving DecidableEq

/-- Tendermint `types.Validator`. -/
structure Validator where
  Address : Bytes := []
  PubKey : PubKey
  VotingPower : Int := 0
  ProposerPriority : Int := 0
deriving DecidableEq

/-- Tendermint `types.Header`. -/
structure Header where
  ChainID : String := ""
  Height : Int := 0
  Time : Int := 0
  LastBlockID : BlockID := {}
  LastCommitHash : Bytes := []
  DataHash : Bytes := []
  ValidatorsHash : Bytes := []
  NextValidatorsHash : Bytes := []
  ConsensusHash : Bytes := []
  AppHash : Bytes := []
  LastResultsHash : Bytes := []
  EvidenceHash : Bytes := []
  ProposerAddress : Bytes := []
deriving DecidableEq

/-- The `CosmosHeader` of `header_sync.go`: a header, the commit for it (a pointer, so
possibly `nil`) and the validators that signed it. -/
structure CosmosHeader where
  Header : Header := {}
  Commit : Option Commit := none
  Valsets : List Validator := []
deriving DecidableEq

/-- Tendermint `types.ValidatorSet` as built by `types.NewValidatorSet`. -/
structure ValidatorSet where
  Validators : List Validator := []
  Proposer : Option Validator := none
deriving DecidableEq

/-- Go `ValidatorSet.Size`: the number of validators. -/
def ValidatorSet.Size (vals : ValidatorSet) : Nat :=
  vals.Validators.length

/-- Go `ValidatorSet.GetByIndex`: the validator at a position, `nil` when the position is out
of range. -/
def ValidatorSet.GetByIndex (vals : ValidatorSet) (idx : Nat) : Option Validator :=
  vals.Validators.get? idx

/-- The functions of the Tendermint and Amino libraries that the header-sync handlers call.
They are parameters of the embedding. -/
structure Tendermint where
  /-- Go `cdc.UnmarshalBinaryBare(v, &header)`, `none` on a decoding error. -/
  UnmarshalBinaryBare : Bytes → Option CosmosHeader
  /-- Go `types.NewValidatorSet`. -/
  NewValidatorSet : List Validator → ValidatorSet
  /-- Go `ValidatorSet.Hash`. -/
  ValidatorSetHash : ValidatorSet → Bytes
  /-- Go `ValidatorSet.TotalVotingPower`. -/
  TotalVotingPower : ValidatorSet → Int
  /-- Go `Header.Hash`. -/
  HeaderHash : Header → Bytes
  /-- Go `Commit.Height`. -/
  CommitHeight : Commit → Int
  /-- Go `Commit.ValidateBasic`, `true` when it returns no error. -/
  CommitValidateBasic : Commit → Bool
  /-- Go `Commit.VoteSignBytes(chainID, idx)`. -/
  VoteSignBytes : Commit → String → Nat → Bytes
  /-- Go `PubKey.VerifyBytes(msg, sig)`. -/
  VerifyBytes : PubKey → Bytes → Bytes → Bool

/-! ## Host environment and storage -/

/-- The errors the two handlers return, one constructor per message of `header_sync.go`
(the two validator-hash checks of `SyncBlockHeader` carry the same message), and one for
a Go run-time panic on a `nil` pointer. -/
inductive SyncError where
  /-- Message "contract params deserialize error" -/
  | paramsDeserialize
  /-- the error of `AddressFromBookkeepers` -/
  | bookkeepers
  /-- Message "checkWitness error" -/
  | checkWitness
  /-- the error of `UnmarshalBinaryBare` -/
  | unmarshal
  /-- Message "hasGenesis error" -/
  | hasGenesisError
  /-- Message "genesis header had been initialized" -/
  | genesisInitialized
  /-- Message "put blockHeader error" -/
  | putBlockHeader
  /-- Message "GetKeyHeights error" -/
  | getKeyHeights
  /-- Message "FindKeyHeight error" -/
  | findKeyHeight
  /-- Message "get prev header error" -/
  | getPrevHeader
  /-- Message "block validator is not right!" -/
  | blockValidatorNotRight
  /-- Message "commit height is not right!" -/
  | commitHeightNotRight
  /-- Message "commit hash is not right!" -/
  | commitHashNotRight
  /-- Message "commit is not right!" -/
  | commitNotRight
  /-- Message "precommits is not right!" -/
  | precommitsNotRight
  /-- Message "Invalid commit -- invalid signature" -/
  | invalidSignature
  /-- Message "voteing power is not enough!" -/
  | votingPowerNotEnough
  /-- a `nil` pointer dereference (run-time panic) -/
  | nilPointer
deriving DecidableEq

/-- Modelled from the spec: the `KeyHeights` record of the package's storage helpers, which
are not among the sources; "a set of heights (kept sorted ascending)". -/
structure KeyHeights where
  HeightList : List Int := []
deriving DecidableEq

/-- Modelled from the spec: `KeyHeights.AddNewHeight`, which is not among the sources; it
adds a height to the sorted set. -/
def KeyHeights.AddNewHeight (kh : KeyHeights) (height : Int) : KeyHeights :=
  if height ∈ kh.HeightList then kh
  else { HeightList := List.orderedInsert (fun a b => a ≤ b) height kh.HeightList }

/-- The largest element of a list of heights that is at most `h`. -/
def largestAtMost (h : Int) : List Int → Option Int
  | [] => none
  | k :: ks =>
    match largestAtMost h ks with
    | none => if k ≤ h then some k else none
    | some m => if k ≤ h ∧ m < k then some k else some m

/-- Modelled from the spec: `KeyHeights.FindKeyHeight`, which is not among the sources;
"returns the largest `k ∈ KeyHeights` with `k ≤ h`", and fails (`none`) when there is
none. -/
def KeyHeights.FindKeyHeight (kh : KeyHeights) (height : Int) : Option Int :=
  largestAtMost height kh.HeightList

/-- Modelled from the spec: the part of the host's cache DB that the Cosmos header sync
uses, by the abstract keys of the spec: `HEADER(chain_id, height)`, `KEY_HEIGHTS(chain_id)`
and `GENESIS(chain_id)`. Headers are held decoded (the spec's round-trip law for the
header encoding). -/
structure CacheDB where
  header : Nat → Int → Option CosmosHeader
  keyHeights : Nat → Option KeyHeights
  genesis : Nat → Bool

/-- The cache DB with no record. -/
def CacheDB.empty : CacheDB :=
  { header := fun _ _ => none, keyHeights := fun _ => none, genesis := fun _ => false }

/-- Modelled from the spec: `GetHeaderByHeight`, which is not among the sources; `get(c, h)`,
failing (`none`) when no header is stored at the height. -/
def GetHeaderByHeight (db : CacheDB) (height : Int) (chainID : Nat) : Option CosmosHeader :=
  db.header chainID height

/-- Modelled from the spec: `putHeader`, which is not among the sources; it stores the header
under `HEADER(chain_id, header.height)`. -/
def putHeader (db : CacheDB) (chainID : Nat) (header : CosmosHeader) : CacheDB :=
  { db with
    header := fun c h =>
      if c = chainID ∧ h = header.Header.Height then some header else db.header c h }

/-- Modelled from the spec: `hasGenesis`, which is not among the sources; whether a genesis
header has been set for the chain (`none` would be a storage error). -/
def hasGenesis (db : CacheDB) (chainID : Nat) : Option Bool :=
  some (db.genesis chainID)

/-- Modelled from the spec: `putGenesisHeader`, which is not among the sources; it stores
the genesis header like any header and marks the chain's genesis as set (`none` would be
a storage error). -/
def putGenesisHeader (db : CacheDB) (header : CosmosHeader) (chainID : Nat) : Option CacheDB :=
  some { putHeader db chainID header with
         genesis := fun c => if c = chainID then true else db.genesis c }

/-- Modelled from the spec: `GetKeyHeights`, which is not among the sources; the chain's
`KEY_HEIGHTS` record, failing (`none`) when there is none. -/
def GetKeyHeights (db : CacheDB) (chainID : Nat) : Option KeyHeights :=
  db.keyHeights chainID

/-- Modelled from the spec: `PutKeyHeights`, which is not among the sources; it rewrites the
chain's `KEY_HEIGHTS` record. -/
def PutKeyHeights (db : CacheDB) (chainID : Nat) (keyHeights : KeyHeights) : CacheDB :=
  { db with
    keyHeights := fun c => if c = chainID then some keyHeights else db.keyHeights c }

/-- Go `hscommon.SyncGenesisHeaderParam`. -/
structure SyncGenesisHeaderParam where
  ChainID : Nat
  GenesisHeader : Bytes
deriving DecidableEq

/-- Go `hscommon.SyncBlockHeaderParam`. -/
structure SyncBlockHeaderParam where
  ChainID : Nat
  Address : Bytes
  Headers : List Bytes
deriving DecidableEq

/-- The `native.NativeService` a handler is invoked with: the cache DB of the transaction,
the serialized arguments and the addresses that signed the transaction. -/
structure NativeService where
  CacheDB : CacheDB
  Input : Bytes
  Signers : List Bytes

/-- Functions of the host that the handlers call and that are not among the sources. -/
structure Host where
  /-- Go `SyncGenesisHeaderParam.Deserialization`, `none` on an error. -/
  DeserializeGenesisParam : Bytes → Option SyncGenesisHeaderParam
  /-- Go `SyncBlockHeaderParam.Deserialization`, `none` on an error. -/
  DeserializeBlockParam : Bytes → Option SyncBlockHeaderParam
  /-- Go `mctypes.AddressFromBookkeepers(genesis.GenesisBookkeepers)`, `none` on an error. -/
  AddressFromBookkeepers : Option Bytes
  /-- Go `utils.ValidateOwner(native, address)`, `true` when it returns no error. -/
  ValidateOwner : NativeService → Bytes → Bool

/-! ## The handlers of `header_sync.go` -/

/-- Go `CosmosHandler.SyncGenesisHeader` (lines 66-106). The result is the cache DB as the
handler leaves it and the error it returns (`none` for `nil`). -/
def SyncGenesisHeader (host : Host) (tm : Tendermint) (native : NativeService) :
    CacheDB × Option SyncError :=
  match host.DeserializeGenesisParam native.Input with
  | none => (native.CacheDB, some .paramsDeserialize)
  | some params =>
    match host.AddressFromBookkeepers with
    | none => (native.CacheDB, some .bookkeepers)
    | some operatorAddress =>
      if host.ValidateOwner native operatorAddress = false then
        (native.CacheDB, some .checkWitness)
      else
        match tm.UnmarshalBinaryBare params.GenesisHeader with
        | none => (native.CacheDB, some .unmarshal)
        | some header =>
          match hasGenesis native.CacheDB params.ChainID with
          | none => (native.CacheDB, some .hasGenesisError)
          | some true => (native.CacheDB, some .genesisInitialized)
          | some false =>
            match putGenesisHeader native.CacheDB header params.ChainID with
            | none => (native.CacheDB, some .putBlockHeader)
            | some db =>
              let keyHeights := ({} : KeyHeights).AddNewHeight header.Header.Height
              (PutKeyHeights db params.ChainID keyHeights, none)

/-- The vote-tally loop of `SyncBlockHeader` (lines 163-178) over the precommits from
position `idx` on, with the tally so far. A missing precommit is skipped; a present one
has its signature verified against the validator at its position (an absent validator is
a `nil` dereference) and adds that validator's voting power when it votes for the block id
of the commit. -/
def tallyPrecommits (tm : Tendermint) (chainID : String) (commit : Commit)
    (valset : ValidatorSet) : List (Option Vote) → Nat → Int → Except SyncError Int
  | [], _, talliedVotingPower => .ok talliedVotingPower
  | none :: rest, idx, talliedVotingPower =>
    tallyPrecommits tm chainID commit valset rest (idx + 1) talliedVotingPower
  | some precommit :: rest, idx, talliedVotingPower =>
    match valset.GetByIndex idx with
    | none => .error .nilPointer
    | some val =>
      if tm.VerifyBytes val.PubKey (tm.VoteSignBytes commit chainID idx)
          precommit.Signature = false then
        .error .invalidSignature
      else
        tallyPrecommits tm chainID commit valset rest (idx + 1)
          (if commit.BlockID.Equals precommit.BlockID then
            wrap64 (talliedVotingPower + val.VotingPower)
          else talliedVotingPower)

/-- The verification of a decoded header against the header stored at its key height
(lines 140-182 of `SyncBlockHeader`): `none` when every check passes, otherwise the error
of the first check that fails. -/
def verifyHeader (tm : Tendermint) (prevHeader myHeader : CosmosHeader) : Option SyncError :=
  let valHash := prevHeader.Header.NextValidatorsHash
  let valset := tm.NewValidatorSet myHeader.Valsets
  let header := myHeader.Header
  if valHash ≠ tm.ValidatorSetHash valset then some .blockValidatorNotRight
  else if header.ValidatorsHash ≠ tm.ValidatorSetHash valset then some .blockValidatorNotRight
  else
    match myHeader.Commit with
    | none => some .nilPointer
    | some commit =>
      if tm.CommitHeight commit ≠ header.Height then some .commitHeightNotRight
      else if commit.BlockID.Hash ≠ tm.HeaderHash header then some .commitHashNotRight
      else if tm.CommitValidateBasic commit = false then some .commitNotRight
      else if valset.Size ≠ commit.Precommits.length then some .precommitsNotRight
      else
        match tallyPrecommits tm prevHeader.Header.ChainID commit valset
            commit.Precommits 0 0 with
        | .error e => some e
        | .ok talliedVotingPower =>
          if quorumAccepts talliedVotingPower (tm.TotalVotingPower valset) = false then
            some .votingPowerNotEnough
          else none

/-- One iteration of the loop of `SyncBlockHeader` (lines 115-186) on the encoded header
`v`: the cache DB to carry on with, or the error the handler returns. Every `return` of
the body precedes its writes, so an error leaves the cache DB of the iteration as it
was. -/
def syncHeader (tm : Tendermint) (chainID : Nat) (db : CacheDB) (v : Bytes) :
    Except SyncError CacheDB :=
  match tm.UnmarshalBinaryBare v with
  | none => .error .unmarshal
  | some myHeader =>
    let height := myHeader.Header.Height
    match GetHeaderByHeight db height chainID with
    | some _ => .ok db
    | none =>
      match GetKeyHeights db chainID with
      | none => .error .getKeyHeights
      | some keyHeights =>
        match keyHeights.FindKeyHeight height with
        | none => .error .findKeyHeight
        | some keyHeight =>
          match GetHeaderByHeight db keyHeight chainID with
          | none => .error .getPrevHeader
          | some prevHeader =>
            match verifyHeader tm prevHeader myHeader with
            | some e => .error e
            | none =>
              let db1 := putHeader db chainID myHeader
              PutKeyHeights db1 chainID (keyHeights.AddNewHeight myHeader.Header.Height)
                |> .ok

/-- The loop of `SyncBlockHeader` over `params.Headers` (line 114): the cache DB as the
handler leaves it and the error it returns. The writes of the headers before a failing one
have been made to the cache DB when the handler returns the error. -/
def syncHeaders (tm : Tendermint) (chainID : Nat) : CacheDB → List Bytes →
    CacheDB × Option SyncError
  | db, [] => (db, none)
  | db, v :: rest =>
    match syncHeader tm chainID db v with
    | .error e => (db, some e)
    | .ok db1 => syncHeaders tm chainID db1 rest

/-- Go `CosmosHandler.SyncBlockHeader` (lines 108-189). The result is the cache DB as the
handler leaves it and the error it returns (`none` for `nil`). -/
def SyncBlockHeader (host : Host) (tm : Tendermint) (native : NativeService) :
    CacheDB × Option SyncError :=
  match host.DeserializeBlockParam native.Input with
  | none => (native.CacheDB, some .paramsDeserialize)
  | some params => syncHeaders tm params.ChainID native.CacheDB params.Headers

/-- Modelled from the spec: the host's transaction around a handler invocation, which is
not among the sources; "each handler invocation sees a consistent snapshot of the cache-DB
and commits atomically on success", "a failure aborts the whole transaction". The result
is the persisted state after the invocation. -/
def commitOrAbort (persisted : CacheDB) (result : CacheDB × Option SyncError) : CacheDB :=
  match result.2 with
  | none => result.1
  | some _ => persisted

/-- Modelled from the spec: a `SyncBlockHeader` transaction of the host (see
`commitOrAbort`): the persisted state after it and the error of the handler. -/
def SyncBlockHeaderTx (host : Host) (tm : Tendermint) (native : NativeService) :
    CacheDB × Option SyncError :=
  let result := SyncBlockHeader host tm native
  (commitOrAbort native.CacheDB result, result.2)

/-! ## The proof operator of `proof.go` -/

/-- The `ics23.LeafOp` of a proof spec. -/
structure LeafOp where
  Hash : Nat := 0
  PrehashKey : Nat := 0
  PrehashValue : Nat := 0
  Length : Nat := 0
  Prefix : Bytes := []
deriving DecidableEq

/-- The `ics23.InnerSpec` of a proof spec. -/
structure InnerSpec where
  ChildOrder : List Int := []
  ChildSize : Int := 0
  MinPrefixLength : Int := 0
  MaxPrefixLength : Int := 0
  EmptyChild : Bytes := []
  Hash : Nat := 0
deriving DecidableEq

/-- The `ics23.ProofSpec`. -/
structure ProofSpec where
  LeafSpec : LeafOp := {}
  InnerSpec : InnerSpec := {}
  MaxDepth : Int := 0
  MinDepth : Int := 0
deriving DecidableEq

/-- The `ics23.ExistenceProof`: a key, a value, the leaf operation and the path of inner
operations (in their encodings). -/
structure ExistenceProof where
  Key : Bytes := []
  Value : Bytes := []
  Leaf : Bytes := []
  Path : List Bytes := []
deriving DecidableEq

/-- The `ics23.NonExistenceProof`: the absent key and the proofs of its neighbours. -/
structure NonExistenceProof where
  Key : Bytes := []
  Left : Option ExistenceProof := none
  Right : Option ExistenceProof := none
deriving DecidableEq

/-- The `ics23.CommitmentProof`, a one-of. -/
inductive CommitmentProof where
  | exist (proof : ExistenceProof)
  | nonexist (proof : NonExistenceProof)
  | batch (entries : List Bytes)
  | compressed (data : Bytes)
deriving DecidableEq

/-- The functions of the ICS-23 library that `CommitmentOp.Run` calls. They are parameters
of the embedding. -/
structure Ics23 where
  /-- Go `CommitmentProof.Calculate`, `none` on an error. -/
  Calculate : CommitmentProof → Option Bytes
  /-- Go `ics23.VerifyMembership(spec, root, proof, key, value)`. -/
  VerifyMembership : Option ProofSpec → Bytes → CommitmentProof → Bytes → Bytes → Bool
  /-- Go `ics23.VerifyNonMembership(spec, root, proof, key)`. -/
  VerifyNonMembership : Option ProofSpec → Bytes → CommitmentProof → Bytes → Bool

/-- The `CommitmentOp` of `proof.go`; `Spec` and `Proof` are pointers. -/
structure CommitmentOp where
  OpType : String
  Spec : Option ProofSpec
  Key : Bytes
  Proof : Option CommitmentProof
deriving DecidableEq

/-- The errors of `CommitmentOp.Run`, one per message, and one for a run-time panic on a
`nil` proof. -/
inductive RunError where
  /-- Message "could not calculate root for proof" -/
  | couldNotCalculateRoot
  /-- Message "proof did not verify absence of key" -/
  | absenceNotVerified
  /-- Message "proof did not verify existence of key" -/
  | existenceNotVerified
  /-- Message "args must be length 0 or 1" -/
  | argsLength
  /-- a `nil` pointer dereference (run-time panic) -/
  | nilPointer
deriving DecidableEq

/-- Go `CommitmentOp.GetKey`. -/
def CommitmentOp.GetKey (op : CommitmentOp) : Bytes :=
  op.Key

/-- Go `CommitmentOp.Run` (lines 68-93): the root is calculated from the proof, then the
number of arguments selects the check. -/
def CommitmentOp.Run (ics : Ics23) (op : CommitmentOp) (args : List Bytes) :
    Except RunError (List Bytes) :=
  match op.Proof with
  | none => .error .nilPointer
  | some proof =>
    match ics.Calculate proof with
    | none => .error .couldNotCalculateRoot
    | some root =>
      match args with
      | [] =>
        if ics.VerifyNonMembership op.Spec root proof op.Key = false then
          .error .absenceNotVerified
        else .ok [root]
      | [value] =>
        if ics.VerifyMembership op.Spec root proof op.Key value = false then
          .error .existenceNotVerified
        else .ok [root]
      | _ => .error .argsLength

/-- The constant `ProofOpIAVLCommitment` of `proof.go`. -/
def ProofOpIAVLCommitment : String := "ics23:iavl"

/-- The constant `ProofOpSimpleMerkleCommitment` of `proof.go`. -/
def ProofOpSimpleMerkleCommitment : String := "ics23:simple"

/-- Tendermint `merkle.ProofOp`: a type, a key and the encoded operator. -/
structure ProofOp where
  OpType : String
  Key : Bytes
  Data : Bytes
deriving DecidableEq

/-- The values and functions of the ICS-23 library that `CommitmentOp.ProofOp` and
`CommitmentOpDecoder` use. They are parameters of the embedding. -/
structure Ics23Codec where
  /-- Go `ics23.IavlSpec`. -/
  IavlSpec : ProofSpec
  /-- Go `ics23.TendermintSpec`. -/
  TendermintSpec : ProofSpec
  /-- Go `CommitmentProof.Unmarshal(data)`, `none` on an error. -/
  Unmarshal : Bytes → Option CommitmentProof
  /-- Go `CommitmentProof.Marshal()`, `none` on an error. -/
  Marshal : CommitmentProof → Option Bytes

/-- The errors of `CommitmentOpDecoder`. -/
inductive DecodeError where
  /-- Message "unexpected ProofOp.Type" -/
  | unexpectedProofOpType
  /-- the error of `CommitmentProof.Unmarshal` -/
  | unmarshal
deriving DecidableEq

/-- Go `CommitmentOp.ProofOp` (lines 98-108): the proof is marshalled into the data of a
`merkle.ProofOp` with the type and key of the op. A marshalling error is a panic, and so
is a `nil` proof; both are `none`. -/
def CommitmentOp.ProofOp (lib : Ics23Codec) (op : CommitmentOp) : Option ProofOp :=
  match op.Proof with
  | none => none
  | some proof =>
    match lib.Marshal proof with
    | none => none
    | some bz => some { OpType := op.OpType, Key := op.Key, Data := bz }

/-- Go `CommitmentOpDecoder` (lines 115-139): the spec is selected by the type of the
`ProofOp`, its data is unmarshalled as a `CommitmentProof`, and the op is assembled with
the type and the key of the `ProofOp`. -/
def CommitmentOpDecoder (lib : Ics23Codec) (pop : ProofOp) :
    Except DecodeError CommitmentOp :=
  let selected : Option ProofSpec :=
    if pop.OpType = ProofOpIAVLCommitment then some lib.IavlSpec
    else if pop.OpType = ProofOpSimpleMerkleCommitment then some lib.TendermintSpec
    else none
  match selected with
  | none => .error .unexpectedProofOpType
  | some spec =>
    match lib.Unmarshal pop.Data with
    | none => .error .unmarshal
    | some proof =>
      .ok { OpType := pop.OpType, Key := pop.Key, Spec := some spec, Proof := some proof }

/-! ## The storage helpers of `header_sync/eth/utils.go` -/

/-- The go-ethereum `types.Header`, with the block number (a big integer) and a few of its
other fields. -/
structure EthHeader where
  ParentHash : Bytes := []
  Number : Int := 0
  Time : Nat := 0
  Extra : Bytes := []
deriving DecidableEq

/-- The `event.NotifyEventInfo` that `notifyPutHeader` adds: the contract address and the
states chain id, height, block hash and height of the host chain. -/
structure NotifyEventInfo where
  ContractAddress : Bytes
  ChainID : Nat
  Height : Nat
  BlockHash : String
  NativeHeight : Nat
deriving DecidableEq

/-- The errors of the helpers of `utils.go`, one per message, and one for an error of the
cache DB itself. -/
inductive EthError where
  /-- an error returned by the cache DB -/
  | store
  /-- Message "getPrevHeaderHeight error" -/
  | getPrevHeaderHeightError
  /-- Message "getPrevHeaderHeight, heightStore is nil" -/
  | heightStoreNil
  /-- Message "GetHeaderByHeight, deserialize headerBytes from raw storage item err" -/
  | deserializeRawStorageItem
  /-- Message "GetHeaderByHeight, get blockHashStore error" -/
  | getBlockHashStoreError
  /-- Message "GetHeaderByHeight, can not find any header records" -/
  | noHeaderRecords
  /-- Message "GetHeaderByHeight, deserialize header error" -/
  | deserializeHeader
deriving DecidableEq

/-- Modelled from the spec: the host's cache DB as the key-value store of the host
capability interface, `cache_db.get(key) -> Option<bytes>` and `put(key, bytes)`; it is
not among the sources. -/
structure RawCacheDB where
  entries : Bytes → Option Bytes

/-- Modelled from the spec: `CacheDB.Put`, which is not among the sources; it sets the value
of the key. -/
def RawCacheDB.Put (db : RawCacheDB) (key value : Bytes) : RawCacheDB :=
  { entries := fun k => if k = key then some value else db.entries k }

/-- Modelled from the spec: `CacheDB.Get`, which is not among the sources; the value of the
key, `nil` (`none`) when there is none. -/
def RawCacheDB.Get (db : RawCacheDB) (key : Bytes) : Except EthError (Option Bytes) :=
  .ok (db.entries key)

/-- The `native.NativeService` the Ethereum helpers work on: the cache DB, the
notifications added so far, and the height of the host chain. -/
structure EthNativeService where
  CacheDB : RawCacheDB
  Notifications : List NotifyEventInfo
  Height : Nat

/-- The constants and functions that `utils.go` uses and that are not among the sources
(package `utils`, `scom`, `cstates`, `config`, go-ethereum, `encoding/hex`,
`encoding/json`). They are parameters of the embedding. -/
structure EthEnv where
  /-- Go `utils.HeaderSyncContractAddress`. -/
  HeaderSyncContractAddress : Bytes
  /-- Go `[]byte(scom.HEADER_INDEX)`. -/
  HEADER_INDEX : Bytes
  /-- Go `[]byte(scom.CURRENT_HEIGHT)`. -/
  CURRENT_HEIGHT : Bytes
  /-- Go `utils.ETH_CHAIN_ID`. -/
  ETH_CHAIN_ID : Nat
  /-- Go `utils.ETH_CHAIN_ID_BYTE`. -/
  ETH_CHAIN_ID_BYTE : Bytes
  /-- Go `utils.ConcatKey(contract, args...)`. -/
  ConcatKey : Bytes → List Bytes → Bytes
  /-- Go `utils.GetUint64Bytes`. -/
  GetUint64Bytes : Nat → Bytes
  /-- Go `utils.GetBytesUint64`. -/
  GetBytesUint64 : Bytes → Nat
  /-- Go `cstates.GenRawStorageItem`. -/
  GenRawStorageItem : Bytes → Bytes
  /-- Go `cstates.GetValueFromRawStorageItem`, `none` on an error. -/
  GetValueFromRawStorageItem : Bytes → Option Bytes
  /-- Go `Header.Hash().Bytes()`. -/
  HeaderHash : EthHeader → Bytes
  /-- Go `big.Int.Uint64`. -/
  Uint64 : Int → Nat
  /-- Go `hex.EncodeToString`. -/
  HexEncodeToString : Bytes → String
  /-- Go `json.Unmarshal(headerBytes, &header)`, `none` on an error. -/
  JsonUnmarshal : Bytes → Option EthHeader
  /-- Go `config.DefConfig.Common.EnableEventLog`. -/
  EnableEventLog : Bool

/-- Go `notifyPutHeader` (lines 63-72): with the event log enabled it adds a notification
of the chain id, the height, the block hash and the height of the host chain. -/
def notifyPutHeader (env : EthEnv) (native : EthNativeService) (chainID height : Nat)
    (blockHash : String) : EthNativeService :=
  if env.EnableEventLog = false then native
  else
    { native with
      Notifications := native.Notifications ++
        [{ ContractAddress := env.HeaderSyncContractAddress, ChainID := chainID,
           Height := height, BlockHash := blockHash, NativeHeight := native.Height }] }

/-- Go `putBlockHeader` (lines 18-27): it puts the header bytes under the header-index key
of the block number, then the block number under the current-height key, notifies, and
returns `nil`. The result is the native service after the call and the error. -/
def putBlockHeader (env : EthEnv) (native : EthNativeService) (blockHeader : EthHeader)
    (headerBytes : Bytes) : EthNativeService × Option EthError :=
  let contract := env.HeaderSyncContractAddress
  let blockHash := env.HeaderHash blockHeader
  let db1 := native.CacheDB.Put
    (env.ConcatKey contract
      [env.HEADER_INDEX, env.ETH_CHAIN_ID_BYTE,
       env.GetUint64Bytes (env.Uint64 blockHeader.Number)])
    (env.GenRawStorageItem headerBytes)
  let db2 := db1.Put
    (env.ConcatKey contract [env.CURRENT_HEIGHT, env.ETH_CHAIN_ID_BYTE])
    (env.GenRawStorageItem (env.GetUint64Bytes (env.Uint64 blockHeader.Number)))
  (notifyPutHeader env { native with CacheDB := db2 } env.ETH_CHAIN_ID
    (env.Uint64 blockHeader.Number) (env.HexEncodeToString blockHash), none)

/-- Go `getCurrentHeaderHeight` (lines 29-42). -/
def getCurrentHeaderHeight (env : EthEnv) (native : EthNativeService) : Except EthError Nat :=
  match native.CacheDB.Get
      (env.ConcatKey env.HeaderSyncContractAddress
        [env.CURRENT_HEIGHT, env.ETH_CHAIN_ID_BYTE]) with
  | .error _ => .error .getPrevHeaderHeightError
  | .ok none => .error .heightStoreNil
  | .ok (some heightStore) =>
    match env.GetValueFromRawStorageItem heightStore with
    | none => .error .deserializeRawStorageItem
    | some heightBytes => .ok (env.GetBytesUint64 heightBytes)

/-- Go `getPrevHeaderByHeight` (lines 44-61). -/
def getPrevHeaderByHeight (env : EthEnv) (native : EthNativeService) (height : Nat) :
    Except EthError EthHeader :=
  match native.CacheDB.Get
      (env.ConcatKey env.HeaderSyncContractAddress
        [env.HEADER_INDEX, env.ETH_CHAIN_ID_BYTE, env.GetUint64Bytes height]) with
  | .error _ => .error .getBlockHashStoreError
  | .ok none => .error .noHeaderRecords
  | .ok (some headerStore) =>
    match env.GetValueFromRawStorageItem headerStore with
    | none => .error .deserializeRawStorageItem
    | some headerBytes =>
      match env.JsonUnmarshal headerBytes with
      | none => .error .deserializeHeader
      | some header => .ok header

/-! ## Specification-side notions -/

/-- The voting power that position `i` of a validator set contributes to the quorum of a
commit: the power of the validator at `i` when the precommit at `i` is present, its
signature verifies under that validator's key over the sign bytes for `chainID`, and it
votes for the block id of the commit; `0` otherwise. -/
def countedPower (tm : Tendermint) (chainID : String) (commit : Commit)
    (valset : ValidatorSet) (i : Nat) : Int :=
  match commit.Precommits.get? i, valset.GetByIndex i with
  | some (some precommit), some val =>
    if tm.VerifyBytes val.PubKey (tm.VoteSignBytes commit chainID i) precommit.Signature = true
        ∧ commit.BlockID = precommit.BlockID then val.VotingPower
    else 0
  | _, _ => 0

/-- The sum of `countedPower` over the positions of the validator set. -/
def quorumTally (tm : Tendermint) (chainID : String) (commit : Commit)
    (valset : ValidatorSet) : Int :=
  ((List.range valset.Size).map (countedPower tm chainID commit valset)).sum

/-- The quorum rule for a header, with the sign bytes built for `chainID`: the header has a
commit and the counted voting power is strictly greater than 2/3 of the total voting power
of the validator set built from `Valsets`. -/
def QuorumRule (tm : Tendermint) (chainID : String) (h : CosmosHeader) : Prop :=
  match h.Commit with
  | none => False
  | some commit =>
    2 * tm.TotalVotingPower (tm.NewValidatorSet h.Valsets)
      < 3 * quorumTally tm chainID commit (tm.NewValidatorSet h.Valsets)

instance (tm : Tendermint) (chainID : String) (h : CosmosHeader) :
    Decidable (QuorumRule tm chainID h) := by
  unfold QuorumRule
  cases h.Commit <;> infer_instance

/-- What Tendermint guarantees of the validator set built from the validators of a header:
no voting power is negative, `TotalVotingPower` is the sum of the voting powers, and the
double of that sum is in the `int64` range (Tendermint caps the total at `MaxInt64 / 8`). -/
def ValsetWellFormed (tm : Tendermint) (h : CosmosHeader) : Prop :=
  (∀ v ∈ (tm.NewValidatorSet h.Valsets).Validators, 0 ≤ v.VotingPower)
    ∧ tm.TotalVotingPower (tm.NewValidatorSet h.Valsets)
        = ((tm.NewValidatorSet h.Valsets).Validators.map (fun v => v.VotingPower)).sum
    ∧ tm.TotalVotingPower (tm.NewValidatorSet h.Valsets) * 2 < 2 ^ 63

instance (tm : Tendermint) (h : CosmosHeader) : Decidable (ValsetWellFormed tm h) := by
  unfold ValsetWellFormed; infer_instance

/-- The voting power of the validators from position `start` on. -/
def restPower (valset : ValidatorSet) (start : Nat) : Int :=
  ((valset.Validators.drop start).map (fun v => v.VotingPower)).sum

/-- The invariant of the reachable states, with `g` the header each chain's genesis call
decoded: a chain without genesis has no record at all, and every stored header is the
genesis header of its chain or passed `verifyHeader` against a header stored for its
chain. -/
def StoreInvariant (tm : Tendermint) (db : CacheDB) (g : Nat → Option CosmosHeader) : Prop :=
  (∀ c, db.genesis c = false →
      db.keyHeights c = none ∧ (∀ height, db.header c height = none) ∧ g c = none)
    ∧ (∀ c height h, db.header c height = some h →
        g c = some h
          ∨ ∃ keyHeight prev, db.header c keyHeight = some prev
              ∧ verifyHeader tm prev h = none)

/-- The key carried inside a `CommitmentProof`: the key of an existence or non-existence
proof; batch and compressed proofs carry no single key. -/
def CommitmentProof.key : CommitmentProof → Option Bytes
  | .exist proof => some proof.Key
  | .nonexist proof => some proof.Key
  | .batch _ => none
  | .compressed _ => none

/-- The six preconditions on a header with commit `commit`, in the order the specification
lists them, each with the error `SyncBlockHeader` has for it: `none` when all six hold,
otherwise the error of the first one that fails. -/
def preconditionError (tm : Tendermint) (prevHeader myHeader : CosmosHeader)
    (commit : Commit) : Option SyncError :=
  if tm.ValidatorSetHash (tm.NewValidatorSet myHeader.Valsets)
      ≠ myHeader.Header.ValidatorsHash then some .blockValidatorNotRight
  else if tm.ValidatorSetHash (tm.NewValidatorSet myHeader.Valsets)
      ≠ prevHeader.Header.NextValidatorsHash then some .blockValidatorNotRight
  else if tm.CommitHeight commit ≠ myHeader.Header.Height then some .commitHeightNotRight
  else if commit.BlockID.Hash ≠ tm.HeaderHash myHeader.Header then some .commitHashNotRight
  else if tm.CommitValidateBasic commit = false then some .commitNotRight
  else if commit.Precommits.length ≠ (tm.NewValidatorSet myHeader.Valsets).Size then
    some .precommitsNotRight
  else none

/-- Two libraries answer alike in everything the six preconditions and the decoding use;
they may differ in the sign bytes, the signature check and the total voting power. -/
def SamePreconditionFunctions (tm tm1 : Tendermint) : Prop :=
  tm1.UnmarshalBinaryBare = tm.UnmarshalBinaryBare
    ∧ tm1.NewValidatorSet = tm.NewValidatorSet
    ∧ tm1.ValidatorSetHash = tm.ValidatorSetHash
    ∧ tm1.HeaderHash = tm.HeaderHash
    ∧ tm1.CommitHeight = tm.CommitHeight
    ∧ tm1.CommitValidateBasic = tm.CommitValidateBasic

/-- The voting power that position `i` adds to the tally: the power of the validator at `i`
when the precommit at `i` is present and votes for the block id of the commit; `0` for a
missing precommit and for a precommit for another block id. -/
def votedPower (commit : Commit) (valset : ValidatorSet) (i : Nat) : Int :=
  match commit.Precommits.get? i, valset.GetByIndex i with
  | some (some precommit), some val =>
    if commit.BlockID = precommit.BlockID then val.VotingPower else 0
  | _, _ => 0

/-- The sum of `votedPower` over the positions of the precommits. -/
def votedSum (commit : Commit) (valset : ValidatorSet) : Int :=
  ((List.range commit.Precommits.length).map (votedPower commit valset)).sum

/-- The states of the cache DB reachable from the empty one through `SyncGenesisHeader` and
`SyncBlockHeader` calls, together with the header each chain's successful
`SyncGenesisHeader` call decoded. A `SyncBlockHeader` step takes the cache DB as the
handler leaves it, whether it returns an error or not. -/
inductive Reachable (host : Host) (tm : Tendermint) :
    CacheDB → (Nat → Option CosmosHeader) → Prop where
  | init : Reachable host tm CacheDB.empty (fun _ => none)
  | genesis (db : CacheDB) (g : Nat → Option CosmosHeader) (native : NativeService)
      (params : SyncGenesisHeaderParam) (header : CosmosHeader) :
      Reachable host tm db g →
      native.CacheDB = db →
      host.DeserializeGenesisParam native.Input = some params →
      tm.UnmarshalBinaryBare params.GenesisHeader = some header →
      (SyncGenesisHeader host tm native).2 = none →
      Reachable host tm (SyncGenesisHeader host tm native).1
        (fun c => if c = params.ChainID then some header else g c)
  | block (db : CacheDB) (g : Nat → Option CosmosHeader) (native : NativeService) :
      Reachable host tm db g →
      native.CacheDB = db →
      Reachable host tm (SyncBlockHeader host tm native).1 g

/-! ## A small concrete instance

Stand-ins for the library functions, simple enough to evaluate, and a few headers. -/

/-- The first present precommit's height, `0` when there is none (Tendermint's
`Commit.Height`). -/
def demoCommitHeight (commit : Commit) : Int :=
  match commit.Precommits.filterMap id with
  | [] => 0
  | precommit :: _ => precommit.Height

/-- Sign bytes of the stand-in: the length of the chain id, the position, and the hash of
the block id the precommit at the position votes for. -/
def demoVoteSignBytes (commit : Commit) (chainID : String) (idx : Nat) : Bytes :=
  chainID.length :: idx ::
    (match commit.Precommits.get? idx with
     | some (some precommit) => precommit.BlockID.Hash
     | _ => [])

/-- Signature check of the stand-in: a signature of an ed25519 key is the key followed by the
message. -/
def demoVerifyBytes (pubKey : PubKey) (msg sig : Bytes) : Bool :=
  match pubKey with
  | .ed25519 key => decide (sig = key ++ msg)
  | _ => false

/-- Three validators with voting powers 2, 2 and 1. -/
def demoValidators : List Validator :=
  [ { Address := [1], PubKey := .ed25519 [11], VotingPower := 2 },
    { Address := [2], PubKey := .ed25519 [12], VotingPower := 2 },
    { Address := [3], PubKey := .ed25519 [13], VotingPower := 1 } ]

/-- A precommit of the validator with key `key` at position `idx` for the block with hash
`blockHash` at `height`, signed for a chain id of four characters; `good = false` spoils
the signature. -/
def demoPrecommit (key idx : Nat) (height : Int) (blockHash : Bytes) (good : Bool) : Vote :=
  { Height := height, BlockID := { Hash := blockHash }, ValidatorIndex := idx,
    Signature := if good then key :: 4 :: idx :: blockHash else [0] }

/-- A genesis header at height 1 whose commit has no precommit at all and whose
`ValidatorsHash` is not the hash of its validators. -/
def demoGenesis : CosmosHeader :=
  { Header := { ChainID := "demo", Height := 1, ValidatorsHash := [9],
                NextValidatorsHash := [2, 2, 1] },
    Commit := some { BlockID := { Hash := [1, 9] }, Precommits := [none, none, none] },
    Valsets := demoValidators }

/-- A header at height 2 signed by all three validators. -/
def demoHeader2 : CosmosHeader :=
  { Header := { ChainID := "demo", Height := 2, ValidatorsHash := [2, 2, 1],
                NextValidatorsHash := [2, 2, 1] },
    Commit := some { BlockID := { Hash := [2, 2, 2, 1] },
                     Precommits := [some (demoPrecommit 11 0 2 [2, 2, 2, 1] true),
                                    some (demoPrecommit 12 1 2 [2, 2, 2, 1] true),
                                    some (demoPrecommit 13 2 2 [2, 2, 2, 1] true)] },
    Valsets := demoValidators }

/-- A header at height 3 whose first two precommits (voting power 4 of 5) are good and
whose third precommit votes for another block and carries a signature that does not
verify. -/
def demoHeader3 : CosmosHeader :=
  { Header := { ChainID := "demo", Height := 3, ValidatorsHash := [2, 2, 1],
                NextValidatorsHash := [2, 2, 1] },
    Commit := some { BlockID := { Hash := [3, 2, 2, 1] },
                     Precommits := [some (demoPrecommit 11 0 3 [3, 2, 2, 1] true),
                                    some (demoPrecommit 12 1 3 [3, 2, 2, 1] true),
                                    some (demoPrecommit 13 2 3 [7] false)] },
    Valsets := demoValidators }

/-- A header at height 1, the height of `demoGenesis`, whose only precommit carries a
signature that does not verify. -/
def demoHeader1 : CosmosHeader :=
  { Header := { ChainID := "other", Height := 1 },
    Commit := some { BlockID := { Hash := [1] },
                     Precommits := [some (demoPrecommit 11 0 1 [1] false), none, none] },
    Valsets := demoValidators }

/-- A header at height 4 with the good precommits of three validators, a `ValidatorsHash`
that is not the hash of its validators and a commit for height 5. -/
def demoHeader4 : CosmosHeader :=
  { Header := { ChainID := "demo", Height := 4, ValidatorsHash := [8],
                NextValidatorsHash := [2, 2, 1] },
    Commit := some { BlockID := { Hash := [4, 8] },
                     Precommits := [some (demoPrecommit 11 0 5 [4, 8] true),
                                    some (demoPrecommit 12 1 5 [4, 8] true),
                                    some (demoPrecommit 13 2 5 [4, 8] true)] },
    Valsets := demoValidators }

/-- The headers the stand-in decoder knows, by their one-byte encoding. -/
def demoHeaders : List CosmosHeader :=
  [demoGenesis, demoHeader1, demoHeader2, demoHeader3, demoHeader4]

/-- The stand-in for the library functions. -/
def demoTendermint : Tendermint :=
  { UnmarshalBinaryBare := fun bz =>
      match bz with
      | [n] => demoHeaders.get? n
      | _ => none
    NewValidatorSet := fun vals => { Validators := vals, Proposer := vals.head? }
    ValidatorSetHash := fun vals => vals.Validators.map (fun v => v.VotingPower.toNat)
    TotalVotingPower := fun vals => (vals.Validators.map (fun v => v.VotingPower)).sum
    HeaderHash := fun header => header.Height.toNat :: header.ValidatorsHash
    CommitHeight := demoCommitHeight
    CommitValidateBasic := fun commit =>
      !(decide (commit.BlockID.Hash = [])) && !(decide (commit.Precommits = []))
    VoteSignBytes := demoVoteSignBytes
    VerifyBytes := demoVerifyBytes }

/-- The stand-in for the host functions: the first input byte is the chain id, the others
are the genesis header, respectively one header each; the operator address is `[7]` and
ownership holds when the operator signed. -/
def demoHost : Host :=
  { DeserializeGenesisParam := fun input =>
      match input with
      | [] => none
      | c :: rest => some { ChainID := c, GenesisHeader := rest }
    DeserializeBlockParam := fun input =>
      match input with
      | [] => none
      | c :: rest => some { ChainID := c, Address := [], Headers := rest.map (fun b => [b]) }
    AddressFromBookkeepers := some [7]
    ValidateOwner := fun native address => decide (address ∈ native.Signers) }

/-- A stand-in for the ICS-23 functions: the root of an existence proof is its leaf bytes,
membership compares key and value, non-membership compares the key. -/
def demoIcs23 : Ics23 :=
  { Calculate := fun proof =>
      match proof with
      | .exist p => some p.Leaf
      | .nonexist p => some p.Key
      | _ => none
    VerifyMembership := fun _ root proof key value =>
      match proof with
      | .exist p => decide (p.Key = key ∧ p.Value = value ∧ p.Leaf = root)
      | _ => false
    VerifyNonMembership := fun _ root proof key =>
      match proof with
      | .nonexist p => decide (p.Key = key ∧ p.Key = root)
      | _ => false }

/-- A proof op for key `[1]` with value `[2]` under the root `[3]`. -/
def demoOp : CommitmentOp :=
  { OpType := "ics23:iavl", Spec := some {}, Key := [1],
    Proof := some (.exist { Key := [1], Value := [2], Leaf := [3] }) }

/-- A library that answers like `demoTendermint` in the preconditions and accepts every
signature. -/
def demoTendermintAnySignature : Tendermint :=
  { demoTendermint with VerifyBytes := fun _ _ _ => true }

/-- A precommit like `demoPrecommit` whose signature is made for a chain id of `chainLen`
characters. -/
def demoPrecommitFor (chainLen key idx : Nat) (height : Int) (blockHash : Bytes) : Vote :=
  { Height := height, BlockID := { Hash := blockHash }, ValidatorIndex := idx,
    Signature := key :: chainLen :: idx :: blockHash }

/-- A header at height 2 of the chain "another-chain" whose commit is for its hash under a
header hash that covers the chain id, and whose precommits are signed for a chain id of
four characters, as that of `demoGenesis` is. -/
def demoHeaderOtherChain : CosmosHeader :=
  { Header := { ChainID := "another-chain", Height := 2, ValidatorsHash := [2, 2, 1],
                NextValidatorsHash := [2, 2, 1] },
    Commit := some { BlockID := { Hash := [13, 2, 2, 2, 1] },
                     Precommits := [some (demoPrecommitFor 4 11 0 2 [13, 2, 2, 2, 1]),
                                    some (demoPrecommitFor 4 12 1 2 [13, 2, 2, 2, 1]),
                                    some (demoPrecommitFor 4 13 2 2 [13, 2, 2, 2, 1])] },
    Valsets := demoValidators }

/-- The header `demoHeaderOtherChain` with precommits signed for its own chain id, of
thirteen characters. -/
def demoHeaderOwnChain : CosmosHeader :=
  { Header := { ChainID := "another-chain", Height := 2, ValidatorsHash := [2, 2, 1],
                NextValidatorsHash := [2, 2, 1] },
    Commit := some { BlockID := { Hash := [13, 2, 2, 2, 1] },
                     Precommits := [some (demoPrecommitFor 13 11 0 2 [13, 2, 2, 2, 1]),
                                    some (demoPrecommitFor 13 12 1 2 [13, 2, 2, 2, 1]),
                                    some (demoPrecommitFor 13 13 2 2 [13, 2, 2, 2, 1])] },
    Valsets := demoValidators }

/-- A library like `demoTendermint` whose header hash covers the chain id, as the hash of
a Tendermint header does, and whose decoder knows `demoHeaderOtherChain` and
`demoHeaderOwnChain`. -/
def demoTendermintChainHash : Tendermint :=
  { demoTendermint with
    UnmarshalBinaryBare := fun bz =>
      match bz with
      | [n] => [demoHeaderOtherChain, demoHeaderOwnChain].get? n
      | _ => none
    HeaderHash := fun header =>
      header.ChainID.length :: header.Height.toNat :: header.ValidatorsHash }

/-- Sign bytes that are those of `demoVoteSignBytes` for chain ids of four characters and
empty for every other chain id. -/
def demoVoteSignBytesFourOnly (commit : Commit) (chainID : String) (idx : Nat) : Bytes :=
  if chainID.length = 4 then demoVoteSignBytes commit chainID idx else []

/-- A stand-in for the ICS-23 encoding: an existence proof with one-byte key, value and
leaf is four bytes, a non-existence proof with a one-byte key and no neighbours is two. -/
def demoCodec : Ics23Codec :=
  { IavlSpec := { LeafSpec := { Hash := 1, PrehashValue := 1, Length := 1, Prefix := [0] },
                  InnerSpec := { ChildOrder := [0, 1], ChildSize := 33, MinPrefixLength := 4,
                                 MaxPrefixLength := 12, Hash := 1 } }
    TendermintSpec :=
      { LeafSpec := { Hash := 1, PrehashValue := 1, Length := 1, Prefix := [0] },
        InnerSpec := { ChildOrder := [0, 1], ChildSize := 32, MinPrefixLength := 1,
                       MaxPrefixLength := 1, Hash := 1 } }
    Unmarshal := fun bz =>
      match bz with
      | [0, k, v, l] => some (.exist { Key := [k], Value := [v], Leaf := [l] })
      | [1, k] => some (.nonexist { Key := [k] })
      | _ => none
    Marshal := fun proof =>
      match proof with
      | .exist { Key := [k], Value := [v], Leaf := [l], Path := [] } => some [0, k, v, l]
      | .nonexist { Key := [k], Left := none, Right := none } => some [1, k]
      | _ => none }

/-- The op `demoOp` with the IAVL spec of `demoCodec`. -/
def demoIavlOp : CommitmentOp :=
  { demoOp with Spec := some demoCodec.IavlSpec }

/-- A `ProofOp` of the IAVL type whose key `[9]` is not the key `[1]` of the proof in its
data. -/
def demoProofOp : ProofOp :=
  { OpType := "ics23:iavl", Key := [9], Data := [0, 1, 2, 3] }

/-- A stand-in for the environment of the Ethereum helpers: keys are concatenations, a
number is one byte, a raw storage item is the value behind a zero byte, and a header is
encoded as the one byte of its number. -/
def demoEthEnv : EthEnv :=
  { HeaderSyncContractAddress := [100]
    HEADER_INDEX := [1]
    CURRENT_HEIGHT := [2]
    ETH_CHAIN_ID := 2
    ETH_CHAIN_ID_BYTE := [2]
    ConcatKey := fun contract args => contract ++ args.flatten
    GetUint64Bytes := fun n => [n]
    GetBytesUint64 := fun bz =>
      match bz with
      | [n] => n
      | _ => 0
    GenRawStorageItem := fun value => 0 :: value
    GetValueFromRawStorageItem := fun item =>
      match item with
      | 0 :: value => some value
      | _ => none
    HeaderHash := fun header => [header.Number.toNat]
    Uint64 := fun x => x.toNat % 2 ^ 64
    HexEncodeToString := fun _ => ""
    JsonUnmarshal := fun bz =>
      match bz with
      | [n] => some { Number := n }
      | _ => none
    EnableEventLog := true }

/-- A native service with an empty cache DB. -/
def demoEthNative : EthNativeService :=
  { CacheDB := { entries := fun _ => none }, Notifications := [], Height := 0 }

/-- The cache DB after the genesis header `demoGenesis` has been adopted for chain 5. -/
def demoDB1 : CacheDB :=
  (SyncGenesisHeader demoHost demoTendermint
    { CacheDB := CacheDB.empty, Input := [5, 0], Signers := [[7]] }).1

/-- The cache DB after `demoHeader2` has been synced on top of `demoDB1`. -/
def demoDB2 : CacheDB :=
  (SyncBlockHeader demoHost demoTendermint
    { CacheDB := demoDB1, Input := [5, 2], Signers := [] }).1

end Poly

/-! ## Theorems -/

namespace Poly

/-! ### Arithmetic -/

theorem wrap64_eq_self (x : Int) (h1 : -(2 ^ 63) ≤ x) (h2 : x < 2 ^ 63) : wrap64 x = x := by
  unfold wrap64
  norm_num at h1 h2 ⊢
  omega

theorem quorumAccepts_iff (t T : Int) (hT : 0 ≤ T) (hT2 : T * 2 < 2 ^ 63) :
    quorumAccepts t T = true ↔ T * 2 < t * 3 := by
  unfold quorumAccepts
  rw [wrap64_eq_self _ (by norm_num; omega) hT2,
    Int.tdiv_eq_ediv (by omega) (by norm_num)]
  simp only [Bool.not_eq_true', decide_eq_false_iff_not, not_le]
  omega

/-- C3. For every `int64` tally `t` and every total voting power `T ≥ 0` whose double is
in the `int64` range, the quorum test of `SyncBlockHeader` accepts exactly when
`t * 3 > T * 2`; a tally of exactly two thirds of the total is rejected and the next
larger tally is accepted. -/
theorem quorum_test_boundary (t T : Int) (ht : IsInt64 t) (hT : 0 ≤ T)
    (hT2 : IsInt64 (T * 2)) :
    (quorumAccepts t T = true ↔ t * 3 > T * 2)
      ∧ (3 * t = 2 * T → quorumAccepts t T = false ∧ quorumAccepts (t + 1) T = true) := by
  have _ := ht
  have key : ∀ s : Int, quorumAccepts s T = true ↔ T * 2 < s * 3 :=
    fun s => quorumAccepts_iff s T hT hT2.2
  refine ⟨key t, fun h => ⟨?_, ?_⟩⟩
  · rw [← Bool.not_eq_true, key]; omega
  · rw [key]; omega

theorem quorum_test_boundary_witness :
    (quorumAccepts 4 6 = true ↔ (4 : Int) * 3 > 6 * 2)
      ∧ ((3 : Int) * 4 = 2 * 6 → quorumAccepts 4 6 = false ∧ quorumAccepts (4 + 1) 6 = true) :=
  quorum_test_boundary 4 6 (by decide) (by decide) (by decide)

/-! ### The checks on one header -/

/-- What a header that passes `verifyHeader` satisfies. -/
theorem verifyHeader_none (tm : Tendermint) (prevHeader myHeader : CosmosHeader)
    (h : verifyHeader tm prevHeader myHeader = none) :
    prevHeader.Header.NextValidatorsHash
        = tm.ValidatorSetHash (tm.NewValidatorSet myHeader.Valsets)
      ∧ myHeader.Header.ValidatorsHash
        = tm.ValidatorSetHash (tm.NewValidatorSet myHeader.Valsets)
      ∧ ∃ commit, myHeader.Commit = some commit
        ∧ tm.CommitHeight commit = myHeader.Header.Height
        ∧ commit.BlockID.Hash = tm.HeaderHash myHeader.Header
        ∧ tm.CommitValidateBasic commit = true
        ∧ (tm.NewValidatorSet myHeader.Valsets).Size = commit.Precommits.length
        ∧ ∃ tallied,
            tallyPrecommits tm prevHeader.Header.ChainID commit
              (tm.NewValidatorSet myHeader.Valsets) commit.Precommits 0 0 = .ok tallied
            ∧ quorumAccepts tallied
                (tm.TotalVotingPower (tm.NewValidatorSet myHeader.Valsets)) = true := by
  unfold verifyHeader at h
  simp only at h
  split at h
  · cases h
  · next h1 =>
    split at h
    · cases h
    · next h2 =>
      refine ⟨not_not.mp h1, not_not.mp h2, ?_⟩
      cases hc : myHeader.Commit with
      | none => simp [hc] at h
      | some commit =>
        simp only [hc] at h
        refine ⟨commit, rfl, ?_⟩
        split at h
        · cases h
        · next h3 =>
          split at h
          · cases h
          · next h4 =>
            split at h
            · cases h
            · next h5 =>
              split at h
              · cases h
              · next h6 =>
                refine ⟨not_not.mp h3, not_not.mp h4, by simpa using h5, not_not.mp h6, ?_⟩
                cases ht : tallyPrecommits tm prevHeader.Header.ChainID commit
                    (tm.NewValidatorSet myHeader.Valsets) commit.Precommits 0 0 with
                | error e => simp [ht] at h
                | ok tallied =>
                  simp only [ht] at h
                  refine ⟨tallied, rfl, ?_⟩
                  by_contra hq
                  simp [hq] at h

/-- A present precommit whose signature does not verify under the key of the validator
at its position makes the tally loop return an error. -/
theorem tallyPrecommits_bad_signature (tm : Tendermint) (chainID : String) (commit : Commit)
    (valset : ValidatorSet) (ps : List (Option Vote)) (start : Nat) (tallied : Int) (j : Nat)
    (precommit : Vote) (val : Validator)
    (hp : ps.get? j = some (some precommit))
    (hval : valset.GetByIndex (start + j) = some val)
    (hbad : tm.VerifyBytes val.PubKey (tm.VoteSignBytes commit chainID (start + j))
      precommit.Signature = false) :
    ∃ e, tallyPrecommits tm chainID commit valset ps start tallied = .error e := by
  induction ps generalizing start tallied j with
  | nil => simp at hp
  | cons q rest ih =>
    cases j with
    | zero =>
      simp only [List.get?_cons_zero, Option.some.injEq] at hp
      subst hp
      simp only [Nat.add_zero] at hval hbad
      simp [tallyPrecommits, hval, hbad]
    | succ j =>
      simp only [List.get?_cons_succ] at hp
      have hidx : start + 1 + j = start + (j + 1) := by omega
      cases q with
      | none =>
        simp only [tallyPrecommits]
        exact ih (start + 1) tallied j hp (by rw [hidx]; exact hval) (by rw [hidx]; exact hbad)
      | some q =>
        simp only [tallyPrecommits]
        cases valset.GetByIndex start with
        | none => exact ⟨_, rfl⟩
        | some val1 =>
          simp only
          split
          · exact ⟨_, rfl⟩
          · exact ih (start + 1) _ j hp (by rw [hidx]; exact hval) (by rw [hidx]; exact hbad)

/-- A header with a present precommit whose signature does not verify does not pass
`verifyHeader`. -/
theorem verifyHeader_bad_signature (tm : Tendermint) (prevHeader myHeader : CosmosHeader)
    (commit : Commit) (idx : Nat) (precommit : Vote) (val : Validator)
    (hc : myHeader.Commit = some commit)
    (hp : commit.Precommits.get? idx = some (some precommit))
    (hval : (tm.NewValidatorSet myHeader.Valsets).GetByIndex idx = some val)
    (hbad : tm.VerifyBytes val.PubKey
      (tm.VoteSignBytes commit prevHeader.Header.ChainID idx) precommit.Signature = false) :
    ∃ e, verifyHeader tm prevHeader myHeader = some e := by
  cases hv : verifyHeader tm prevHeader myHeader with
  | some e => exact ⟨e, rfl⟩
  | none =>
    obtain ⟨_, _, commit1, hc1, _, _, _, _, tallied, ht, _⟩ :=
      verifyHeader_none tm prevHeader myHeader hv
    rw [hc] at hc1
    cases hc1
    obtain ⟨e, he⟩ := tallyPrecommits_bad_signature tm prevHeader.Header.ChainID commit
      (tm.NewValidatorSet myHeader.Valsets) commit.Precommits 0 0 idx precommit val hp
      (by rw [Nat.zero_add]; exact hval) (by rw [Nat.zero_add]; exact hbad)
    rw [he] at ht
    cases ht

/-! ### The tally loop against the counted voting power -/

theorem blockID_equals_iff (a b : BlockID) : a.Equals b = true ↔ a = b := by
  cases a with
  | mk ha pa =>
    cases b with
    | mk hb pb =>
      cases pa; cases pb
      simp [BlockID.Equals, PartSetHeader.Equals, and_assoc]

theorem restPower_step (valset : ValidatorSet) (start : Nat) (val : Validator)
    (h : valset.GetByIndex start = some val) :
    restPower valset start = val.VotingPower + restPower valset (start + 1) := by
  unfold restPower
  unfold ValidatorSet.GetByIndex at h
  have hlt : start < valset.Validators.length := (List.get?_eq_some.mp h).1
  have hget : valset.Validators[start] = val := by
    have := List.get?_eq_get hlt
    rw [h] at this
    exact (Option.some.inj this).symm
  rw [List.drop_eq_getElem_cons hlt, hget]
  simp

theorem restPower_nonneg (valset : ValidatorSet) (start : Nat)
    (hpos : ∀ v ∈ valset.Validators, 0 ≤ v.VotingPower) : 0 ≤ restPower valset start := by
  unfold restPower
  apply List.sum_nonneg
  intro x hx
  obtain ⟨v, hv, rfl⟩ := List.mem_map.mp hx
  exact hpos v (List.mem_of_mem_drop hv)

/-- When no voting power is negative and the tally so far plus the voting power still to
come stays in the `int64` range, a tally loop that succeeds returns the tally so far plus
the counted voting power of the positions it visits. -/
theorem tallyPrecommits_ok (tm : Tendermint) (chainID : String) (commit : Commit)
    (valset : ValidatorSet) (hpos : ∀ v ∈ valset.Validators, 0 ≤ v.VotingPower)
    (ps : List (Option Vote)) (start : Nat) (tallied result : Int)
    (hps : ∀ j, ps.get? j = commit.Precommits.get? (start + j))
    (h0 : 0 ≤ tallied) (hfit : tallied + restPower valset start < 2 ^ 63)
    (h : tallyPrecommits tm chainID commit valset ps start tallied = .ok result) :
    result = tallied
      + ((List.range ps.length).map
          (fun j => countedPower tm chainID commit valset (start + j))).sum := by
  induction ps generalizing start tallied with
  | nil =>
    simp only [tallyPrecommits, Except.ok.injEq] at h
    simp [h]
  | cons q rest ih =>
    have hq : commit.Precommits.get? start = some q := by
      have := hps 0
      simpa using this.symm
    have hrest : ∀ j, rest.get? j = commit.Precommits.get? (start + 1 + j) := by
      intro j
      have := hps (j + 1)
      rw [List.get?_cons_succ] at this
      rw [this]
      congr 1
      omega
    have hsum : ((List.range (q :: rest).length).map
        (fun j => countedPower tm chainID commit valset (start + j))).sum
        = countedPower tm chainID commit valset start
          + ((List.range rest.length).map
              (fun j => countedPower tm chainID commit valset (start + 1 + j))).sum := by
      rw [List.length_cons, List.range_succ_eq_map, List.map_cons, List.sum_cons,
        List.map_map]
      congr 2
      apply List.map_congr_left
      intro j _
      simp only [Function.comp, Nat.add_zero]
      congr 1
      omega
    rw [hsum]
    have hrn := restPower_nonneg valset (start + 1) hpos
    cases q with
    | none =>
      simp only [tallyPrecommits] at h
      have hval : ∀ val, valset.GetByIndex start = some val → 0 ≤ val.VotingPower := by
        intro val hv
        exact hpos val (List.get?_mem hv)
      have hfit1 : tallied + restPower valset (start + 1) < 2 ^ 63 := by
        cases hg : valset.GetByIndex start with
        | none =>
          have : restPower valset start = 0 := by
            unfold restPower
            unfold ValidatorSet.GetByIndex at hg
            rw [List.drop_eq_nil_of_le (List.get?_eq_none.mp hg)]
            rfl
          have hge : valset.Validators.length ≤ start + 1 := by
            unfold ValidatorSet.GetByIndex at hg
            have := List.get?_eq_none.mp hg
            omega
          have : restPower valset (start + 1) = 0 := by
            unfold restPower
            rw [List.drop_eq_nil_of_le hge]
            rfl
          omega
        | some val =>
          have := restPower_step valset start val hg
          have := hval val hg
          omega
      have := ih (start + 1) tallied hrest h0 hfit1 h
      have hc0 : countedPower tm chainID commit valset start = 0 := by
        unfold countedPower
        rw [hq]
      rw [this, hc0]
      ring
    | some precommit =>
      simp only [tallyPrecommits] at h
      cases hg : valset.GetByIndex start with
      | none => simp [hg] at h
      | some val =>
        simp only [hg] at h
        have hstep := restPower_step valset start val hg
        have hv0 : 0 ≤ val.VotingPower := hpos val (List.get?_mem hg)
        by_cases hver : tm.VerifyBytes val.PubKey (tm.VoteSignBytes commit chainID start)
            precommit.Signature = false
        · simp [hver] at h
        · simp only [hver, if_false] at h
          have hver1 : tm.VerifyBytes val.PubKey (tm.VoteSignBytes commit chainID start)
              precommit.Signature = true := by simpa using hver
          by_cases heq : commit.BlockID.Equals precommit.BlockID = true
          · have hbid : commit.BlockID = precommit.BlockID :=
              (blockID_equals_iff _ _).mp heq
            simp only [heq, if_true] at h
            have hw : wrap64 (tallied + val.VotingPower) = tallied + val.VotingPower := by
              apply wrap64_eq_self
              · have : (0 : Int) < 2 ^ 63 := by norm_num
                omega
              · omega
            rw [hw] at h
            have := ih (start + 1) (tallied + val.VotingPower) hrest (by omega)
              (by omega) h
            have hc : countedPower tm chainID commit valset start = val.VotingPower := by
              unfold countedPower
              rw [hq, hg]
              simp [hver1, hbid]
            rw [this, hc]
            ring
          · have hbid : ¬ commit.BlockID = precommit.BlockID :=
              fun hb => heq ((blockID_equals_iff _ _).mpr hb)
            simp only [heq] at h
            have := ih (start + 1) tallied hrest h0 (by omega) h
            have hc : countedPower tm chainID commit valset start = 0 := by
              unfold countedPower
              rw [hq, hg]
              simp [hbid]
            rw [this, hc]
            ring

/-- A header that passes `verifyHeader` against `prevHeader` and whose validator set is
well-formed satisfies the quorum rule for the chain id of `prevHeader`. -/
theorem verifyHeader_quorum (tm : Tendermint) (prevHeader myHeader : CosmosHeader)
    (hwf : ValsetWellFormed tm myHeader)
    (h : verifyHeader tm prevHeader myHeader = none) :
    QuorumRule tm prevHeader.Header.ChainID myHeader := by
  obtain ⟨_, _, commit, hc, _, _, _, hsize, tallied, ht, hq⟩ :=
    verifyHeader_none tm prevHeader myHeader h
  obtain ⟨hpos, htot, hfit⟩ := hwf
  have hrest0 : restPower (tm.NewValidatorSet myHeader.Valsets) 0
      = tm.TotalVotingPower (tm.NewValidatorSet myHeader.Valsets) := by
    rw [htot]
    simp [restPower]
  have hT0 : 0 ≤ tm.TotalVotingPower (tm.NewValidatorSet myHeader.Valsets) := by
    rw [← hrest0]
    exact restPower_nonneg _ 0 hpos
  have hres := tallyPrecommits_ok tm prevHeader.Header.ChainID commit
    (tm.NewValidatorSet myHeader.Valsets) hpos commit.Precommits 0 0 tallied
    (by intro j; rw [Nat.zero_add]) (le_refl 0) (by rw [hrest0]; omega) ht
  have hacc := (quorumAccepts_iff tallied _ hT0 hfit).mp hq
  unfold QuorumRule
  simp only [hc]
  unfold quorumTally
  rw [hsize]
  simp only [Nat.zero_add, zero_add] at hres
  rw [← hres]
  omega

/-! ### The tally loop against the sum of the votes -/

theorem wrap64_isInt64 (x : Int) : IsInt64 (wrap64 x) := by
  unfold IsInt64 wrap64
  norm_num
  omega

theorem wrap64_add_wrap64 (a b : Int) : wrap64 (wrap64 a + b) = wrap64 (a + b) := by
  unfold wrap64
  norm_num
  omega

/-- When every present precommit has a validator at its position and a signature that
verifies, the tally loop succeeds, and it returns the tally so far plus the voted power
of the positions it visits, reduced to an `int64`. -/
theorem tallyPrecommits_votes (tm : Tendermint) (chainID : String) (commit : Commit)
    (valset : ValidatorSet)
    (hsig : ∀ i precommit val, commit.Precommits.get? i = some (some precommit) →
      valset.GetByIndex i = some val →
      tm.VerifyBytes val.PubKey (tm.VoteSignBytes commit chainID i) precommit.Signature
        = true)
    (ps : List (Option Vote)) (start : Nat) (tallied : Int)
    (hps : ∀ j, ps.get? j = commit.Precommits.get? (start + j))
    (hval : ∀ j, j < ps.length → ∃ val, valset.GetByIndex (start + j) = some val)
    (ht : IsInt64 tallied) :
    tallyPrecommits tm chainID commit valset ps start tallied
      = .ok (wrap64 (tallied
          + ((List.range ps.length).map
              (fun j => votedPower commit valset (start + j))).sum)) := by
  induction ps generalizing start tallied with
  | nil =>
    simp only [tallyPrecommits, List.length_nil, List.range_zero, List.map_nil, List.sum_nil,
      add_zero]
    rw [wrap64_eq_self tallied ht.1 ht.2]
  | cons q rest ih =>
    have hq : commit.Precommits.get? start = some q := by
      have := hps 0
      simpa using this.symm
    have hrest : ∀ j, rest.get? j = commit.Precommits.get? (start + 1 + j) := by
      intro j
      have := hps (j + 1)
      rw [List.get?_cons_succ] at this
      rw [this]
      congr 1
      omega
    have hvalrest : ∀ j, j < rest.length →
        ∃ val, valset.GetByIndex (start + 1 + j) = some val := by
      intro j hj
      obtain ⟨val, hv⟩ := hval (j + 1) (by simp only [List.length_cons]; omega)
      exact ⟨val, by rw [← hv]; congr 1; omega⟩
    have hsum : ((List.range (q :: rest).length).map
        (fun j => votedPower commit valset (start + j))).sum
        = votedPower commit valset start
          + ((List.range rest.length).map
              (fun j => votedPower commit valset (start + 1 + j))).sum := by
      rw [List.length_cons, List.range_succ_eq_map, List.map_cons, List.sum_cons,
        List.map_map]
      congr 2
      apply List.map_congr_left
      intro j _
      simp only [Function.comp]
      congr 1
      omega
    rw [hsum]
    obtain ⟨val, hg⟩ := hval 0 (by simp)
    rw [Nat.add_zero] at hg
    cases q with
    | none =>
      simp only [tallyPrecommits]
      rw [ih (start + 1) tallied hrest hvalrest ht]
      have hv0 : votedPower commit valset start = 0 := by
        unfold votedPower
        rw [hq]
      rw [hv0, zero_add]
    | some precommit =>
      have hver := hsig start precommit val hq hg
      simp only [tallyPrecommits, hg, hver, Bool.true_eq_false, if_false]
      by_cases heq : commit.BlockID.Equals precommit.BlockID = true
      · have hbid : commit.BlockID = precommit.BlockID := (blockID_equals_iff _ _).mp heq
        simp only [heq, if_true]
        rw [ih (start + 1) _ hrest hvalrest (wrap64_isInt64 _)]
        have hv : votedPower commit valset start = val.VotingPower := by
          unfold votedPower
          rw [hq, hg]
          simp [hbid]
        rw [hv, wrap64_add_wrap64, add_assoc]
      · have hbid : ¬ commit.BlockID = precommit.BlockID :=
          fun hb => heq ((blockID_equals_iff _ _).mpr hb)
        rw [if_neg heq]
        rw [ih (start + 1) tallied hrest hvalrest ht]
        have hv : votedPower commit valset start = 0 := by
          unfold votedPower
          rw [hq, hg]
          simp [hbid]
        rw [hv, zero_add]

/-! ### The order of the preconditions -/

/-- When one of the six preconditions fails, `verifyHeader` returns the error of the first
one that fails in the listed order. -/
theorem verifyHeader_precondition (tm : Tendermint) (prevHeader myHeader : CosmosHeader)
    (commit : Commit) (e : SyncError) (hc : myHeader.Commit = some commit)
    (hpre : preconditionError tm prevHeader myHeader commit = some e) :
    verifyHeader tm prevHeader myHeader = some e := by
  unfold preconditionError at hpre
  unfold verifyHeader
  simp only [hc]
  by_cases a1 : tm.ValidatorSetHash (tm.NewValidatorSet myHeader.Valsets)
      = myHeader.Header.ValidatorsHash
  · rw [if_neg (not_not.mpr a1)] at hpre
    by_cases a2 : tm.ValidatorSetHash (tm.NewValidatorSet myHeader.Valsets)
        = prevHeader.Header.NextValidatorsHash
    · rw [if_neg (not_not.mpr a2)] at hpre
      rw [if_neg (not_not.mpr a2.symm), if_neg (not_not.mpr a1.symm)]
      by_cases a3 : tm.CommitHeight commit = myHeader.Header.Height
      · rw [if_neg (not_not.mpr a3)] at hpre
        rw [if_neg (not_not.mpr a3)]
        by_cases a4 : commit.BlockID.Hash = tm.HeaderHash myHeader.Header
        · rw [if_neg (not_not.mpr a4)] at hpre
          rw [if_neg (not_not.mpr a4)]
          by_cases a5 : tm.CommitValidateBasic commit = false
          · rw [if_pos a5] at hpre
            rw [if_pos a5]
            exact hpre
          · rw [if_neg a5] at hpre
            rw [if_neg a5]
            by_cases a6 : commit.Precommits.length
                = (tm.NewValidatorSet myHeader.Valsets).Size
            · rw [if_neg (not_not.mpr a6)] at hpre
              cases hpre
            · rw [if_pos a6] at hpre
              rw [if_pos (fun h => a6 h.symm)]
              exact hpre
        · rw [if_pos a4] at hpre
          rw [if_pos a4]
          exact hpre
      · rw [if_pos a3] at hpre
        rw [if_pos a3]
        exact hpre
    · rw [if_pos a2] at hpre
      rw [if_pos (fun h => a2 h.symm)]
      exact hpre
  · rw [if_pos a1] at hpre
    by_cases a2 : prevHeader.Header.NextValidatorsHash
        = tm.ValidatorSetHash (tm.NewValidatorSet myHeader.Valsets)
    · rw [if_neg (not_not.mpr a2), if_pos (fun h => a1 h.symm)]
      exact hpre
    · rw [if_pos a2]
      exact hpre

/-- When all six preconditions hold, the outcome of `verifyHeader` is that of the tally
loop and the quorum test. -/
theorem verifyHeader_preconditions_hold (tm : Tendermint) (prevHeader myHeader : CosmosHeader)
    (commit : Commit) (hc : myHeader.Commit = some commit)
    (hpre : preconditionError tm prevHeader myHeader commit = none) :
    verifyHeader tm prevHeader myHeader =
      match tallyPrecommits tm prevHeader.Header.ChainID commit
          (tm.NewValidatorSet myHeader.Valsets) commit.Precommits 0 0 with
      | .error e => some e
      | .ok talliedVotingPower =>
        if quorumAccepts talliedVotingPower
            (tm.TotalVotingPower (tm.NewValidatorSet myHeader.Valsets)) = false then
          some .votingPowerNotEnough
        else none := by
  unfold preconditionError at hpre
  unfold verifyHeader
  simp only [hc]
  split_ifs at hpre with a1 a2 a3 a4 a5 a6
  rw [if_neg (not_not.mpr (not_not.mp a2).symm), if_neg (not_not.mpr (not_not.mp a1).symm),
    if_neg a3, if_neg a4, if_neg a5, if_neg (fun h => a6 h.symm)]

/-! ### One iteration of the loop of `SyncBlockHeader` -/

/-- What a successful iteration did: either a header was already stored at the height and
the cache DB is untouched, or no header was stored there, the header verified against the
header at its key height, and the header and the enlarged `KeyHeights` were written. -/
theorem syncHeader_ok_cases (tm : Tendermint) (chainID : Nat) (db db1 : CacheDB) (v : Bytes)
    (h : syncHeader tm chainID db v = .ok db1) :
    ∃ myHeader, tm.UnmarshalBinaryBare v = some myHeader ∧
      ((∃ old, db.header chainID myHeader.Header.Height = some old ∧ db1 = db) ∨
       (db.header chainID myHeader.Header.Height = none ∧
         ∃ keyHeights keyHeight prevHeader,
           db.keyHeights chainID = some keyHeights ∧
           keyHeights.FindKeyHeight myHeader.Header.Height = some keyHeight ∧
           db.header chainID keyHeight = some prevHeader ∧
           verifyHeader tm prevHeader myHeader = none ∧
           db1 = PutKeyHeights (putHeader db chainID myHeader) chainID
                  (keyHeights.AddNewHeight myHeader.Header.Height))) := by
  unfold syncHeader at h
  cases hu : tm.UnmarshalBinaryBare v with
  | none => simp [hu] at h
  | some myHeader =>
    refine ⟨myHeader, rfl, ?_⟩
    simp only [hu, GetHeaderByHeight, GetKeyHeights] at h
    cases hs : db.header chainID myHeader.Header.Height with
    | some old =>
      simp only [hs, Except.ok.injEq] at h
      exact Or.inl ⟨old, rfl, h.symm⟩
    | none =>
      simp only [hs] at h
      refine Or.inr ⟨rfl, ?_⟩
      cases hk : db.keyHeights chainID with
      | none => simp [hk] at h
      | some keyHeights =>
        simp only [hk] at h
        cases hf : keyHeights.FindKeyHeight myHeader.Header.Height with
        | none => simp [hf] at h
        | some keyHeight =>
          simp only [hf] at h
          cases hp : db.header chainID keyHeight with
          | none => simp [hp] at h
          | some prevHeader =>
            simp only [hp] at h
            cases hv : verifyHeader tm prevHeader myHeader with
            | some e => simp [hv] at h
            | none =>
              simp only [hv, Except.ok.injEq] at h
              exact ⟨keyHeights, keyHeight, prevHeader, rfl, hf, hp, hv, h.symm⟩

/-- An iteration on a header whose height is already stored succeeds and changes
nothing. -/
theorem syncHeader_skip (tm : Tendermint) (chainID : Nat) (db : CacheDB) (v : Bytes)
    (myHeader old : CosmosHeader) (hu : tm.UnmarshalBinaryBare v = some myHeader)
    (hs : db.header chainID myHeader.Header.Height = some old) :
    syncHeader tm chainID db v = .ok db := by
  unfold syncHeader
  simp [hu, GetHeaderByHeight, hs]

/-- A successful iteration keeps every stored header. -/
theorem syncHeader_header_mono (tm : Tendermint) (chainID : Nat) (db db1 : CacheDB)
    (v : Bytes) (h : syncHeader tm chainID db v = .ok db1) (c : Nat) (height : Int)
    (hdr : CosmosHeader) (hs : db.header c height = some hdr) :
    db1.header c height = some hdr := by
  obtain ⟨myHeader, _, ⟨_, _, rfl⟩ | ⟨hnone, _, _, _, _, _, _, _, rfl⟩⟩ :=
    syncHeader_ok_cases tm chainID db db1 v h
  · exact hs
  · simp only [PutKeyHeights, putHeader]
    split
    · next hc =>
      obtain ⟨rfl, rfl⟩ := hc
      rw [hnone] at hs
      cases hs
    · exact hs

/-! ### The loop of `SyncBlockHeader` -/

theorem syncHeaders_append (tm : Tendermint) (chainID : Nat) (db : CacheDB)
    (xs ys : List Bytes) :
    syncHeaders tm chainID db (xs ++ ys) =
      match syncHeaders tm chainID db xs with
      | (db1, none) => syncHeaders tm chainID db1 ys
      | (db1, some e) => (db1, some e) := by
  induction xs generalizing db with
  | nil => rfl
  | cons x xs ih =>
    simp only [List.cons_append, syncHeaders]
    cases syncHeader tm chainID db x with
    | error e => rfl
    | ok db1 => exact ih db1

/-- The loop keeps every stored header, whether it ends with an error or not. -/
theorem syncHeaders_header_mono (tm : Tendermint) (chainID : Nat) (db : CacheDB)
    (vs : List Bytes) (c : Nat) (height : Int) (hdr : CosmosHeader)
    (hs : db.header c height = some hdr) :
    (syncHeaders tm chainID db vs).1.header c height = some hdr := by
  induction vs generalizing db with
  | nil => exact hs
  | cons v vs ih =>
    simp only [syncHeaders]
    cases hv : syncHeader tm chainID db v with
    | error e => exact hs
    | ok db1 => exact ih db1 (syncHeader_header_mono tm chainID db db1 v hv c height hdr hs)

/-- When every header of the list decodes to a height that is already stored, the loop
succeeds and changes nothing. -/
theorem syncHeaders_skip_all (tm : Tendermint) (chainID : Nat) (db : CacheDB)
    (vs : List Bytes)
    (h : ∀ v ∈ vs, ∃ myHeader old, tm.UnmarshalBinaryBare v = some myHeader
          ∧ db.header chainID myHeader.Header.Height = some old) :
    syncHeaders tm chainID db vs = (db, none) := by
  induction vs with
  | nil => rfl
  | cons v vs ih =>
    obtain ⟨myHeader, old, hu, hs⟩ := h v (List.mem_cons_self v vs)
    simp only [syncHeaders, syncHeader_skip tm chainID db v myHeader old hu hs]
    exact ih (fun w hw => h w (List.mem_cons_of_mem v hw))

/-- After a successful loop every header of the list decodes to a height that is
stored. -/
theorem syncHeaders_stored_after (tm : Tendermint) (chainID : Nat) (db db1 : CacheDB)
    (vs : List Bytes) (h : syncHeaders tm chainID db vs = (db1, none)) :
    ∀ v ∈ vs, ∃ myHeader old, tm.UnmarshalBinaryBare v = some myHeader
      ∧ db1.header chainID myHeader.Header.Height = some old := by
  induction vs generalizing db with
  | nil => intro v hv; cases hv
  | cons w ws ih =>
    simp only [syncHeaders] at h
    cases hw : syncHeader tm chainID db w with
    | error e => simp [hw] at h
    | ok db2 =>
      simp only [hw] at h
      intro v hv
      rcases List.mem_cons.mp hv with rfl | hv
      · obtain ⟨myHeader, hu, hcase⟩ := syncHeader_ok_cases tm chainID db db2 v hw
        have hst : ∃ old, db2.header chainID myHeader.Header.Height = some old := by
          rcases hcase with ⟨old, hs, rfl⟩ | ⟨_, _, _, _, _, _, _, _, rfl⟩
          · exact ⟨old, hs⟩
          · exact ⟨myHeader, by simp [PutKeyHeights, putHeader]⟩
        obtain ⟨old, hold⟩ := hst
        refine ⟨myHeader, old, hu, ?_⟩
        have := syncHeaders_header_mono tm chainID db2 ws chainID myHeader.Header.Height old hold
        rw [h] at this
        exact this
      · exact ih db2 h v hv

/-! ### The invariant of the reachable states -/

theorem storeInvariant_syncHeader (tm : Tendermint) (chainID : Nat) (db db1 : CacheDB)
    (g : Nat → Option CosmosHeader) (v : Bytes) (hinv : StoreInvariant tm db g)
    (h : syncHeader tm chainID db v = .ok db1) : StoreInvariant tm db1 g := by
  have hmono := syncHeader_header_mono tm chainID db db1 v h
  obtain ⟨myHeader, _, ⟨_, _, rfl⟩ | ⟨hnone, keyHeights, keyHeight, prev, hk, _, hprev, hver,
    rfl⟩⟩ := syncHeader_ok_cases tm chainID db db1 v h
  · exact hinv
  · obtain ⟨hgen, hhdr⟩ := hinv
    constructor
    · intro c hc
      have hc0 : db.genesis c = false := hc
      obtain ⟨hk0, hh0, hg0⟩ := hgen c hc0
      have hne : c ≠ chainID := by
        rintro rfl
        rw [hk] at hk0
        cases hk0
      refine ⟨?_, ?_, hg0⟩
      · simp [PutKeyHeights, putHeader, hne, hk0]
      · intro height
        simp [PutKeyHeights, putHeader, hne, hh0]
    · intro c height hdr hs
      by_cases hkey : c = chainID ∧ height = myHeader.Header.Height
      · obtain ⟨rfl, rfl⟩ := hkey
        have : hdr = myHeader := by
          simp [PutKeyHeights, putHeader] at hs
          exact hs.symm
        subst this
        exact Or.inr ⟨keyHeight, prev, hmono c keyHeight prev hprev, hver⟩
      · have hs0 : db.header c height = some hdr := by
          simp only [PutKeyHeights, putHeader, hkey, if_false] at hs
          exact hs
        rcases hhdr c height hdr hs0 with hg0 | ⟨k, p, hp, hv⟩
        · exact Or.inl hg0
        · exact Or.inr ⟨k, p, hmono c k p hp, hv⟩

theorem storeInvariant_syncHeaders (tm : Tendermint) (chainID : Nat) (db : CacheDB)
    (g : Nat → Option CosmosHeader) (vs : List Bytes) (hinv : StoreInvariant tm db g) :
    StoreInvariant tm (syncHeaders tm chainID db vs).1 g := by
  induction vs generalizing db with
  | nil => exact hinv
  | cons v vs ih =>
    simp only [syncHeaders]
    cases hv : syncHeader tm chainID db v with
    | error e => exact hinv
    | ok db1 => exact ih db1 (storeInvariant_syncHeader tm chainID db db1 g v hinv hv)

/-- What a successful `SyncGenesisHeader` call did. -/
theorem syncGenesisHeader_ok (host : Host) (tm : Tendermint) (native : NativeService)
    (params : SyncGenesisHeaderParam) (header : CosmosHeader)
    (hp : host.DeserializeGenesisParam native.Input = some params)
    (hu : tm.UnmarshalBinaryBare params.GenesisHeader = some header)
    (hok : (SyncGenesisHeader host tm native).2 = none) :
    native.CacheDB.genesis params.ChainID = false
      ∧ ∃ db1, putGenesisHeader native.CacheDB header params.ChainID = some db1
        ∧ (SyncGenesisHeader host tm native).1
          = PutKeyHeights db1 params.ChainID
              (({} : KeyHeights).AddNewHeight header.Header.Height) := by
  unfold SyncGenesisHeader at hok ⊢
  simp only [hp, hu] at hok ⊢
  cases ha : host.AddressFromBookkeepers with
  | none => simp [ha] at hok
  | some addr =>
    simp only [ha] at hok ⊢
    cases hv : host.ValidateOwner native addr with
    | false => simp [hv] at hok
    | true =>
      simp only [hv, Bool.true_eq_false, if_false] at hok ⊢
      cases hg : native.CacheDB.genesis params.ChainID with
      | true => simp [hasGenesis, hg] at hok
      | false =>
        refine ⟨rfl, ?_⟩
        simp only [hasGenesis, hg, putGenesisHeader]
        exact ⟨_, rfl, rfl⟩

theorem storeInvariant_genesis (host : Host) (tm : Tendermint) (native : NativeService)
    (g : Nat → Option CosmosHeader) (params : SyncGenesisHeaderParam) (header : CosmosHeader)
    (hinv : StoreInvariant tm native.CacheDB g)
    (hp : host.DeserializeGenesisParam native.Input = some params)
    (hu : tm.UnmarshalBinaryBare params.GenesisHeader = some header)
    (hok : (SyncGenesisHeader host tm native).2 = none) :
    StoreInvariant tm (SyncGenesisHeader host tm native).1
      (fun c => if c = params.ChainID then some header else g c) := by
  obtain ⟨hg, db1, hput, hres⟩ := syncGenesisHeader_ok host tm native params header hp hu hok
  rw [hres]
  simp only [putGenesisHeader, Option.some.injEq] at hput
  subst hput
  obtain ⟨hgen, hhdr⟩ := hinv
  obtain ⟨_, hh0, _⟩ := hgen params.ChainID hg
  constructor
  · intro c hc
    have hne : c ≠ params.ChainID := by
      rintro rfl
      simp [PutKeyHeights] at hc
    have hc0 : native.CacheDB.genesis c = false := by
      simpa [PutKeyHeights, hne] using hc
    obtain ⟨hk1, hh1, hg1⟩ := hgen c hc0
    refine ⟨?_, ?_, ?_⟩
    · simp [PutKeyHeights, putHeader, hne, hk1]
    · intro height
      simp [PutKeyHeights, putHeader, hne, hh1]
    · simp [hne, hg1]
  · intro c height hdr hs
    by_cases hc : c = params.ChainID
    · subst hc
      left
      simp only [PutKeyHeights, putHeader, true_and] at hs
      split at hs
      · show (if params.ChainID = params.ChainID then some header
          else g params.ChainID) = some hdr
        rw [if_pos rfl]
        exact hs
      · rw [hh0] at hs
        cases hs
    · have hs0 : native.CacheDB.header c height = some hdr := by
        simpa [PutKeyHeights, putHeader, hc] using hs
      rcases hhdr c height hdr hs0 with hg0 | ⟨k, p, hpk, hvk⟩
      · left
        simp [hc, hg0]
      · right
        refine ⟨k, p, ?_, hvk⟩
        simp [PutKeyHeights, putHeader, hc, hpk]

theorem reachable_storeInvariant (host : Host) (tm : Tendermint) (db : CacheDB)
    (g : Nat → Option CosmosHeader) (hr : Reachable host tm db g) :
    StoreInvariant tm db g := by
  induction hr with
  | init =>
    exact ⟨fun _ _ => ⟨rfl, fun _ => rfl, rfl⟩, fun _ _ _ hs => by cases hs⟩
  | genesis db g native params header _ hdb hp hu hok ih =>
    subst hdb
    exact storeInvariant_genesis host tm native g params header ih hp hu hok
  | block db g native _ hdb ih =>
    subst hdb
    unfold SyncBlockHeader
    cases host.DeserializeBlockParam native.Input with
    | none => exact ih
    | some params =>
      exact storeInvariant_syncHeaders tm params.ChainID native.CacheDB g params.Headers ih

/-- C1, amended. In every state reachable through `SyncGenesisHeader` and
`SyncBlockHeader` calls, every stored header other than the header its chain's
`SyncGenesisHeader` call wrote satisfies the quorum rule (for a validator set as Tendermint
builds it: no negative voting power, the total is the sum, its double is an `int64`): the
voting power of the validators of its `Valsets` whose precommit is present, carries a
verifying signature and votes for `Commit.BlockID` is strictly greater than 2/3 of the
total, the sign bytes being those for the chain id of a header stored for the chain. -/
theorem reachable_stored_header_quorum (host : Host) (tm : Tendermint) (db : CacheDB)
    (g : Nat → Option CosmosHeader) (hr : Reachable host tm db g)
    (c : Nat) (height : Int) (h : CosmosHeader)
    (hs : db.header c height = some h) (hng : g c ≠ some h)
    (hwf : ValsetWellFormed tm h) :
    ∃ keyHeight prev, db.header c keyHeight = some prev
      ∧ QuorumRule tm prev.Header.ChainID h := by
  obtain ⟨_, hhdr⟩ := reachable_storeInvariant host tm db g hr
  rcases hhdr c height h hs with hg | ⟨k, prev, hp, hv⟩
  · exact absurd hg hng
  · exact ⟨k, prev, hp, verifyHeader_quorum tm prev h hwf hv⟩

theorem reachable_stored_header_quorum_witness :
    ∃ keyHeight prev, demoDB2.header 5 keyHeight = some prev
      ∧ QuorumRule demoTendermint prev.Header.ChainID demoHeader2 :=
  reachable_stored_header_quorum demoHost demoTendermint demoDB2
    (fun c => if c = 5 then some demoGenesis else none)
    (Reachable.block demoDB1 _ { CacheDB := demoDB1, Input := [5, 2], Signers := [] }
      (Reachable.genesis CacheDB.empty (fun _ => none)
        { CacheDB := CacheDB.empty, Input := [5, 0], Signers := [[7]] }
        { ChainID := 5, GenesisHeader := [0] } demoGenesis Reachable.init rfl
        (by decide) (by decide) (by decide))
      rfl)
    5 2 demoHeader2 (by decide) (by decide) (by decide)

/-- C1 as stated fails: the state after `SyncGenesisHeader` adopted `demoGenesis` for
chain 5 is reachable and stores `demoGenesis`, none of whose precommits is present: its
counted voting power is 0 of a total of 5, whatever chain id the sign bytes are built
for. -/
theorem genesis_header_stored_without_quorum :
    Reachable demoHost demoTendermint demoDB1
        (fun c => if c = 5 then some demoGenesis else none)
      ∧ demoDB1.header 5 1 = some demoGenesis
      ∧ demoTendermint.TotalVotingPower (demoTendermint.NewValidatorSet demoGenesis.Valsets)
          = 5
      ∧ (∀ chainID : String,
          quorumTally demoTendermint chainID
            ({ BlockID := { Hash := [1, 9] }, Precommits := [none, none, none] } : Commit)
            (demoTendermint.NewValidatorSet demoGenesis.Valsets) = 0)
      ∧ ∀ chainID : String, ¬ QuorumRule demoTendermint chainID demoGenesis :=
  ⟨Reachable.genesis CacheDB.empty (fun _ => none)
      { CacheDB := CacheDB.empty, Input := [5, 0], Signers := [[7]] }
      { ChainID := 5, GenesisHeader := [0] } demoGenesis Reachable.init rfl
      (by decide) (by decide) (by decide),
    by decide, by decide, fun _ => rfl,
    fun _ hq => absurd (show (2 : Int) * 5 < 3 * 0 from hq) (by decide)⟩

/-! ### `SyncBlockHeader` as a whole -/

/-- C8. `SyncBlockHeader` never overwrites a stored header: every (chain id, height) that
holds a header before the call holds the identical header in the cache DB the handler
leaves, whether it returns an error or not, and in the state the host persists. -/
theorem syncBlockHeader_keeps_stored_headers (host : Host) (tm : Tendermint)
    (native : NativeService) (c : Nat) (height : Int) (hdr : CosmosHeader)
    (hs : native.CacheDB.header c height = some hdr) :
    (SyncBlockHeader host tm native).1.header c height = some hdr
      ∧ (SyncBlockHeaderTx host tm native).1.header c height = some hdr := by
  have h1 : (SyncBlockHeader host tm native).1.header c height = some hdr := by
    unfold SyncBlockHeader
    cases host.DeserializeBlockParam native.Input with
    | none => exact hs
    | some params =>
      exact syncHeaders_header_mono tm params.ChainID native.CacheDB params.Headers c height
        hdr hs
  refine ⟨h1, ?_⟩
  show (commitOrAbort native.CacheDB (SyncBlockHeader host tm native)).header c height
    = some hdr
  unfold commitOrAbort
  split
  · exact h1
  · exact hs

theorem syncBlockHeader_keeps_stored_headers_witness :
    (SyncBlockHeader demoHost demoTendermint
        { CacheDB := demoDB1, Input := [5, 1, 2, 3], Signers := [] }).1.header 5 1
        = some demoGenesis
      ∧ (SyncBlockHeaderTx demoHost demoTendermint
        { CacheDB := demoDB1, Input := [5, 1, 2, 3], Signers := [] }).1.header 5 1
        = some demoGenesis :=
  syncBlockHeader_keeps_stored_headers demoHost demoTendermint
    { CacheDB := demoDB1, Input := [5, 1, 2, 3], Signers := [] } 5 1 demoGenesis (by decide)

/-- C9. If every header of a `SyncBlockHeader` input decodes and has a height at which a
header is already stored for the chain, the call succeeds and leaves the cache DB
unchanged, whatever the validator-set, commit and signature functions would answer (any
library with the same decoder gives this result); and running a successful call a second
time with the same input succeeds and yields the state of running it once. -/
theorem syncBlockHeader_replay (host : Host) (tm : Tendermint) (native : NativeService) :
    (∀ params, host.DeserializeBlockParam native.Input = some params →
      (∀ v ∈ params.Headers, ∃ myHeader old, tm.UnmarshalBinaryBare v = some myHeader
        ∧ native.CacheDB.header params.ChainID myHeader.Header.Height = some old) →
      ∀ tm1 : Tendermint, tm1.UnmarshalBinaryBare = tm.UnmarshalBinaryBare →
        SyncBlockHeader host tm1 native = (native.CacheDB, none))
      ∧ ((SyncBlockHeader host tm native).2 = none →
        SyncBlockHeader host tm
            { native with CacheDB := (SyncBlockHeader host tm native).1 }
          = ((SyncBlockHeader host tm native).1, none)) := by
  constructor
  · intro params hp hall tm1 htm
    unfold SyncBlockHeader
    simp only [hp]
    apply syncHeaders_skip_all
    intro v hv
    rw [htm]
    exact hall v hv
  · intro hok
    unfold SyncBlockHeader at hok ⊢
    cases hp : host.DeserializeBlockParam native.Input with
    | none => simp [hp] at hok
    | some params =>
      simp only [hp] at hok ⊢
      apply syncHeaders_skip_all
      exact syncHeaders_stored_after tm params.ChainID native.CacheDB _ params.Headers
        (Prod.ext rfl hok)

theorem syncBlockHeader_replay_witness :
    SyncBlockHeader demoHost demoTendermint
        { CacheDB := demoDB2, Input := [5, 1, 2], Signers := [] } = (demoDB2, none)
      ∧ SyncBlockHeader demoHost demoTendermint
          { CacheDB := demoDB2, Input := [5, 2], Signers := [] } = (demoDB2, none) :=
  ⟨(syncBlockHeader_replay demoHost demoTendermint
      { CacheDB := demoDB2, Input := [5, 1, 2], Signers := [] }).1
      { ChainID := 5, Address := [], Headers := [[1], [2]] } (by decide)
      (by
        intro v hv
        simp only [List.mem_cons, List.mem_singleton, List.not_mem_nil, or_false] at hv
        rcases hv with rfl | rfl
        · exact ⟨demoHeader1, demoGenesis, by decide, by decide⟩
        · exact ⟨demoHeader2, demoHeader2, by decide, by decide⟩)
      demoTendermint rfl,
   (syncBlockHeader_replay demoHost demoTendermint
      { CacheDB := demoDB1, Input := [5, 2], Signers := [] }).2 (by decide)⟩

/-- A successful loop over `pre ++ v :: post` ran the iteration for `v` successfully on
the cache DB that the loop over `pre` left. -/
theorem syncHeaders_ok_split (tm : Tendermint) (chainID : Nat) (db : CacheDB)
    (pre post : List Bytes) (v : Bytes)
    (hok : (syncHeaders tm chainID db (pre ++ v :: post)).2 = none) :
    ∃ db1, syncHeader tm chainID (syncHeaders tm chainID db pre).1 v = .ok db1 := by
  rw [syncHeaders_append] at hok
  rcases hpre : syncHeaders tm chainID db pre with ⟨dbk, _ | e⟩
  · rw [hpre] at hok
    simp only [syncHeaders] at hok
    cases hv : syncHeader tm chainID dbk v with
    | error e => simp [hv] at hok
    | ok db1 => exact ⟨db1, rfl⟩
  · rw [hpre] at hok
    simp at hok

/-- C2, amended. Whenever `SyncBlockHeader` returns success, every header `h` of the input
at whose height no header is stored when the loop reaches it satisfies: the validator set
built from `h.Valsets` hashes to `h.Header.ValidatorsHash` and to the `NextValidatorsHash`
of `prev`, the header stored at `FindKeyHeight(h.Header.Height)` in the state the loop
reached `h` in. -/
theorem accepted_header_valset_hashes (host : Host) (tm : Tendermint)
    (native : NativeService) (params : SyncBlockHeaderParam) (pre post : List Bytes)
    (v : Bytes) (h : CosmosHeader)
    (hp : host.DeserializeBlockParam native.Input = some params)
    (hh : params.Headers = pre ++ v :: post)
    (hu : tm.UnmarshalBinaryBare v = some h)
    (hnew : (syncHeaders tm params.ChainID native.CacheDB pre).1.header params.ChainID
      h.Header.Height = none)
    (hok : (SyncBlockHeader host tm native).2 = none) :
    tm.ValidatorSetHash (tm.NewValidatorSet h.Valsets) = h.Header.ValidatorsHash
      ∧ ∃ keyHeights keyHeight prev,
          GetKeyHeights (syncHeaders tm params.ChainID native.CacheDB pre).1 params.ChainID
            = some keyHeights
          ∧ keyHeights.FindKeyHeight h.Header.Height = some keyHeight
          ∧ GetHeaderByHeight (syncHeaders tm params.ChainID native.CacheDB pre).1 keyHeight
              params.ChainID = some prev
          ∧ tm.ValidatorSetHash (tm.NewValidatorSet h.Valsets)
              = prev.Header.NextValidatorsHash := by
  unfold SyncBlockHeader at hok
  simp only [hp, hh] at hok
  obtain ⟨db1, hv⟩ := syncHeaders_ok_split tm params.ChainID native.CacheDB pre post v hok
  obtain ⟨myHeader, hu1, hcase⟩ := syncHeader_ok_cases tm params.ChainID _ db1 v hv
  rw [hu] at hu1
  cases hu1
  rcases hcase with ⟨old, hs, _⟩ | ⟨_, keyHeights, keyHeight, prev, hk, hf, hprev, hver, _⟩
  · rw [hnew] at hs
    cases hs
  · obtain ⟨h1, h2, _⟩ := verifyHeader_none tm prev h hver
    exact ⟨h2.symm, keyHeights, keyHeight, prev, hk, hf, hprev, h1.symm⟩

theorem accepted_header_valset_hashes_witness :
    demoTendermint.ValidatorSetHash (demoTendermint.NewValidatorSet demoHeader2.Valsets)
        = demoHeader2.Header.ValidatorsHash
      ∧ ∃ keyHeights keyHeight prev,
          GetKeyHeights (syncHeaders demoTendermint 5 demoDB1 [[1]]).1 5 = some keyHeights
          ∧ keyHeights.FindKeyHeight demoHeader2.Header.Height = some keyHeight
          ∧ GetHeaderByHeight (syncHeaders demoTendermint 5 demoDB1 [[1]]).1 keyHeight 5
              = some prev
          ∧ demoTendermint.ValidatorSetHash
              (demoTendermint.NewValidatorSet demoHeader2.Valsets)
              = prev.Header.NextValidatorsHash :=
  accepted_header_valset_hashes demoHost demoTendermint
    { CacheDB := demoDB1, Input := [5, 1, 2], Signers := [] }
    { ChainID := 5, Address := [], Headers := [[1], [2]] } [[1]] [] [2] demoHeader2
    (by decide) (by decide) (by decide) (by decide) (by decide)

/-- C2 as stated fails: `SyncBlockHeader` returns success for an input that contains the
header `demoGenesis`, stored already at its height, whose validators do not hash to its
`ValidatorsHash`. -/
theorem skipped_header_valset_hash_mismatch :
    (SyncBlockHeader demoHost demoTendermint
        { CacheDB := demoDB1, Input := [5, 0], Signers := [] }).2 = none
      ∧ demoHost.DeserializeBlockParam [5, 0]
          = some { ChainID := 5, Address := [], Headers := [[0]] }
      ∧ demoTendermint.UnmarshalBinaryBare [0] = some demoGenesis
      ∧ demoTendermint.ValidatorSetHash (demoTendermint.NewValidatorSet demoGenesis.Valsets)
          ≠ demoGenesis.Header.ValidatorsHash := by
  decide

/-- C4, amended. If a header of the input has no header stored at its height when the
loop reaches it, and one of its present precommits carries a signature that does not
verify under the public key of the validator at the same index (over the sign bytes built
with the chain id of the header at its key height), `SyncBlockHeader` returns an error and
leaves the cache DB as the headers before it left it: the header is not stored and its
height is not added to `KeyHeights`. -/
theorem bad_signature_rejects_header (host : Host) (tm : Tendermint)
    (native : NativeService) (params : SyncBlockHeaderParam) (pre post : List Bytes)
    (v : Bytes) (h : CosmosHeader) (commit : Commit) (idx : Nat) (precommit : Vote)
    (val : Validator)
    (hp : host.DeserializeBlockParam native.Input = some params)
    (hh : params.Headers = pre ++ v :: post)
    (hu : tm.UnmarshalBinaryBare v = some h)
    (hnew : (syncHeaders tm params.ChainID native.CacheDB pre).1.header params.ChainID
      h.Header.Height = none)
    (hc : h.Commit = some commit)
    (hpc : commit.Precommits.get? idx = some (some precommit))
    (hval : (tm.NewValidatorSet h.Valsets).GetByIndex idx = some val)
    (hbad : ∀ keyHeights keyHeight prev,
      GetKeyHeights (syncHeaders tm params.ChainID native.CacheDB pre).1 params.ChainID
        = some keyHeights →
      keyHeights.FindKeyHeight h.Header.Height = some keyHeight →
      GetHeaderByHeight (syncHeaders tm params.ChainID native.CacheDB pre).1 keyHeight
        params.ChainID = some prev →
      tm.VerifyBytes val.PubKey (tm.VoteSignBytes commit prev.Header.ChainID idx)
        precommit.Signature = false) :
    (∃ e, (SyncBlockHeader host tm native).2 = some e)
      ∧ (SyncBlockHeader host tm native).1
          = (syncHeaders tm params.ChainID native.CacheDB pre).1
      ∧ (SyncBlockHeader host tm native).1.header params.ChainID h.Header.Height = none := by
  have hstep : ∃ e, syncHeader tm params.ChainID
      (syncHeaders tm params.ChainID native.CacheDB pre).1 v = .error e := by
    generalize (syncHeaders tm params.ChainID native.CacheDB pre).1 = dbk at hnew hbad
    unfold syncHeader
    simp only [hu, GetHeaderByHeight, hnew]
    cases hk : GetKeyHeights dbk params.ChainID with
    | none => exact ⟨_, rfl⟩
    | some keyHeights =>
      simp only
      cases hf : keyHeights.FindKeyHeight h.Header.Height with
      | none => exact ⟨_, rfl⟩
      | some keyHeight =>
        simp only
        cases hprev : dbk.header params.ChainID keyHeight with
        | none => exact ⟨_, rfl⟩
        | some prev =>
          simp only
          obtain ⟨e, he⟩ := verifyHeader_bad_signature tm prev h commit idx precommit val hc
            hpc hval (hbad keyHeights keyHeight prev hk hf hprev)
          rw [he]
          exact ⟨e, rfl⟩
  obtain ⟨e, he⟩ := hstep
  have hres : ∃ e1, SyncBlockHeader host tm native
      = ((syncHeaders tm params.ChainID native.CacheDB pre).1, some e1) := by
    unfold SyncBlockHeader
    simp only [hp, hh]
    rw [syncHeaders_append]
    rcases hpre : syncHeaders tm params.ChainID native.CacheDB pre with ⟨dbk, _ | e1⟩
    · rw [hpre] at he
      simp only [syncHeaders, he]
      exact ⟨e, rfl⟩
    · exact ⟨e1, rfl⟩
  obtain ⟨e1, h1⟩ := hres
  rw [h1]
  exact ⟨⟨e1, rfl⟩, rfl, hnew⟩

theorem bad_signature_rejects_header_witness :
    (∃ e, (SyncBlockHeader demoHost demoTendermint
        { CacheDB := demoDB1, Input := [5, 2, 3], Signers := [] }).2 = some e)
      ∧ (SyncBlockHeader demoHost demoTendermint
          { CacheDB := demoDB1, Input := [5, 2, 3], Signers := [] }).1
          = (syncHeaders demoTendermint 5 demoDB1 [[2]]).1
      ∧ (SyncBlockHeader demoHost demoTendermint
          { CacheDB := demoDB1, Input := [5, 2, 3], Signers := [] }).1.header 5 3 = none :=
  bad_signature_rejects_header demoHost demoTendermint
    { CacheDB := demoDB1, Input := [5, 2, 3], Signers := [] }
    { ChainID := 5, Address := [], Headers := [[2], [3]] } [[2]] [] [3] demoHeader3
    { BlockID := { Hash := [3, 2, 2, 1] },
      Precommits := [some (demoPrecommit 11 0 3 [3, 2, 2, 1] true),
                     some (demoPrecommit 12 1 3 [3, 2, 2, 1] true),
                     some (demoPrecommit 13 2 3 [7] false)] }
    2 (demoPrecommit 13 2 3 [7] false)
    { Address := [3], PubKey := .ed25519 [13], VotingPower := 1 }
    (by decide) (by decide) (by decide) (by decide) (by decide) (by decide) (by decide)
    (fun _ _ _ _ _ _ => rfl)

/-- C4 as stated fails: the header `demoHeader1` has a present precommit whose signature
verifies under no chain id, and `SyncBlockHeader` returns success for it, because a
header is stored at its height already. -/
theorem bad_signature_skipped_at_stored_height :
    demoHost.DeserializeBlockParam [5, 1]
        = some { ChainID := 5, Address := [], Headers := [[1]] }
      ∧ demoTendermint.UnmarshalBinaryBare [1] = some demoHeader1
      ∧ demoHeader1.Commit
          = some { BlockID := { Hash := [1] },
                   Precommits := [some (demoPrecommit 11 0 1 [1] false), none, none] }
      ∧ (demoTendermint.NewValidatorSet demoHeader1.Valsets).GetByIndex 0
          = some { Address := [1], PubKey := .ed25519 [11], VotingPower := 2 }
      ∧ (∀ chainID : String,
          demoTendermint.VerifyBytes (.ed25519 [11])
            (demoTendermint.VoteSignBytes
              { BlockID := { Hash := [1] },
                Precommits := [some (demoPrecommit 11 0 1 [1] false), none, none] }
              chainID 0)
            (demoPrecommit 11 0 1 [1] false).Signature = false)
      ∧ (SyncBlockHeader demoHost demoTendermint
          { CacheDB := demoDB1, Input := [5, 1], Signers := [] }).2 = none :=
  ⟨by decide, by decide, by decide, by decide, fun _ => rfl, by decide⟩

theorem preconditionError_congr (tm tm1 : Tendermint) (hsame : SamePreconditionFunctions tm tm1)
    (prevHeader myHeader : CosmosHeader) (commit : Commit) :
    preconditionError tm1 prevHeader myHeader commit
      = preconditionError tm prevHeader myHeader commit := by
  obtain ⟨_, h2, h3, h4, h5, h6⟩ := hsame
  simp only [preconditionError, h2, h3, h4, h5, h6]

/-- The iteration on a header that reaches the verification with a failing precondition. -/
theorem syncHeader_precondition_error (tm : Tendermint) (chainID : Nat) (db : CacheDB)
    (v : Bytes) (h : CosmosHeader) (commit : Commit) (keyHeights : KeyHeights)
    (keyHeight : Int) (prev : CosmosHeader) (e : SyncError)
    (hu : tm.UnmarshalBinaryBare v = some h)
    (hnew : db.header chainID h.Header.Height = none)
    (hk : GetKeyHeights db chainID = some keyHeights)
    (hf : keyHeights.FindKeyHeight h.Header.Height = some keyHeight)
    (hprev : GetHeaderByHeight db keyHeight chainID = some prev)
    (hc : h.Commit = some commit)
    (hpre : preconditionError tm prev h commit = some e) :
    syncHeader tm chainID db v = .error e := by
  unfold syncHeader
  have hnew1 : GetHeaderByHeight db h.Header.Height chainID = none := hnew
  simp only [hu, hnew1, hk, hf, hprev, verifyHeader_precondition tm prev h commit e hc hpre]

/-- C17. For a header that reaches the verification of `SyncBlockHeader` (no header stored
at its height, key height and its header found), the error returned is the one of the
first failing check among validator-set hash against `header.validators_hash`,
validator-set hash against `prev.next_validators_hash`, commit height, commit block-id
hash, `commit.ValidateBasic` and precommit count; that error does not depend on the sign
bytes, the signature check or the total voting power (no signature is verified and no
voting power is tallied), and only when all six hold is the outcome that of the tally loop
and the quorum test. -/
theorem preconditions_checked_in_order (host : Host) (tm : Tendermint)
    (native : NativeService) (params : SyncBlockHeaderParam) (pre post : List Bytes)
    (v : Bytes) (h : CosmosHeader) (commit : Commit) (keyHeights : KeyHeights)
    (keyHeight : Int) (prev : CosmosHeader)
    (hp : host.DeserializeBlockParam native.Input = some params)
    (hh : params.Headers = pre ++ v :: post)
    (hpreok : (syncHeaders tm params.ChainID native.CacheDB pre).2 = none)
    (hu : tm.UnmarshalBinaryBare v = some h)
    (hnew : (syncHeaders tm params.ChainID native.CacheDB pre).1.header params.ChainID
      h.Header.Height = none)
    (hk : GetKeyHeights (syncHeaders tm params.ChainID native.CacheDB pre).1 params.ChainID
      = some keyHeights)
    (hf : keyHeights.FindKeyHeight h.Header.Height = some keyHeight)
    (hprev : GetHeaderByHeight (syncHeaders tm params.ChainID native.CacheDB pre).1 keyHeight
      params.ChainID = some prev)
    (hc : h.Commit = some commit) :
    (∀ e, preconditionError tm prev h commit = some e →
        SyncBlockHeader host tm native
            = ((syncHeaders tm params.ChainID native.CacheDB pre).1, some e)
          ∧ ∀ tm1, SamePreconditionFunctions tm tm1 →
              syncHeader tm1 params.ChainID
                (syncHeaders tm params.ChainID native.CacheDB pre).1 v = .error e)
      ∧ (preconditionError tm prev h commit = none →
          verifyHeader tm prev h =
            match tallyPrecommits tm prev.Header.ChainID commit
                (tm.NewValidatorSet h.Valsets) commit.Precommits 0 0 with
            | .error e => some e
            | .ok talliedVotingPower =>
              if quorumAccepts talliedVotingPower
                  (tm.TotalVotingPower (tm.NewValidatorSet h.Valsets)) = false then
                some .votingPowerNotEnough
              else none) := by
  refine ⟨fun e hpre => ⟨?_, fun tm1 hsame => ?_⟩,
    verifyHeader_preconditions_hold tm prev h commit hc⟩
  · have hstep := syncHeader_precondition_error tm params.ChainID _ v h commit keyHeights
      keyHeight prev e hu hnew hk hf hprev hc hpre
    unfold SyncBlockHeader
    simp only [hp, hh]
    rw [syncHeaders_append]
    rcases hs : syncHeaders tm params.ChainID native.CacheDB pre with ⟨dbk, _ | e1⟩
    · rw [hs] at hstep
      simp only [syncHeaders, hstep]
    · rw [hs] at hpreok
      cases hpreok
  · exact syncHeader_precondition_error tm1 params.ChainID _ v h commit keyHeights
      keyHeight prev e (by rw [hsame.1]; exact hu) hnew hk hf hprev hc
      (by rw [preconditionError_congr tm tm1 hsame]; exact hpre)

theorem preconditions_checked_in_order_witness :
    SyncBlockHeader demoHost demoTendermint
        { CacheDB := demoDB2, Input := [5, 4], Signers := [] }
        = (demoDB2, some .blockValidatorNotRight)
      ∧ syncHeader demoTendermintAnySignature 5 demoDB2 [4]
        = .error .blockValidatorNotRight :=
  have key := (preconditions_checked_in_order demoHost demoTendermint
    { CacheDB := demoDB2, Input := [5, 4], Signers := [] }
    { ChainID := 5, Address := [], Headers := [[4]] } [] [] [4] demoHeader4
    { BlockID := { Hash := [4, 8] },
      Precommits := [some (demoPrecommit 11 0 5 [4, 8] true),
                     some (demoPrecommit 12 1 5 [4, 8] true),
                     some (demoPrecommit 13 2 5 [4, 8] true)] }
    { HeightList := [1, 2] } 2 demoHeader2
    (by decide) (by decide) (by decide) (by decide) (by decide) (by decide) (by decide)
    (by decide) (by decide)).1 .blockValidatorNotRight (by decide)
  ⟨key.1, key.2 demoTendermintAnySignature ⟨rfl, rfl, rfl, rfl, rfl, rfl⟩⟩

/-- C18. For a header that passes the six preconditions and whose present precommits all
carry verifying signatures, the tally loop of `SyncBlockHeader` returns, as an `int64`, the
sum of the voting power of the validator at index `i` over exactly the indices `i` whose
precommit is present and votes for `Commit.BlockID` (missing precommits and precommits for
another block id contribute 0); it is that sum itself whenever the sum is in the `int64`
range, and the header is then accepted or rejected by the quorum test on it. -/
theorem tally_equals_sum_of_votes (tm : Tendermint) (prev h : CosmosHeader) (commit : Commit)
    (hc : h.Commit = some commit)
    (hpre : preconditionError tm prev h commit = none)
    (hsig : ∀ i precommit val, commit.Precommits.get? i = some (some precommit) →
      (tm.NewValidatorSet h.Valsets).GetByIndex i = some val →
      tm.VerifyBytes val.PubKey (tm.VoteSignBytes commit prev.Header.ChainID i)
        precommit.Signature = true) :
    tallyPrecommits tm prev.Header.ChainID commit (tm.NewValidatorSet h.Valsets)
        commit.Precommits 0 0
        = .ok (wrap64 (votedSum commit (tm.NewValidatorSet h.Valsets)))
      ∧ (IsInt64 (votedSum commit (tm.NewValidatorSet h.Valsets)) →
          tallyPrecommits tm prev.Header.ChainID commit (tm.NewValidatorSet h.Valsets)
            commit.Precommits 0 0
            = .ok (votedSum commit (tm.NewValidatorSet h.Valsets)))
      ∧ verifyHeader tm prev h =
          if quorumAccepts (wrap64 (votedSum commit (tm.NewValidatorSet h.Valsets)))
              (tm.TotalVotingPower (tm.NewValidatorSet h.Valsets)) = false then
            some .votingPowerNotEnough
          else none := by
  have hsize : commit.Precommits.length = (tm.NewValidatorSet h.Valsets).Size := by
    unfold preconditionError at hpre
    split_ifs at hpre with a1 a2 a3 a4 a5 a6
    exact not_not.mp a6
  have hval : ∀ j, j < commit.Precommits.length →
      ∃ val, (tm.NewValidatorSet h.Valsets).GetByIndex (0 + j) = some val := by
    intro j hj
    rw [Nat.zero_add]
    unfold ValidatorSet.GetByIndex
    unfold ValidatorSet.Size at hsize
    exact ⟨_, List.get?_eq_get (by omega)⟩
  have htally := tallyPrecommits_votes tm prev.Header.ChainID commit
    (tm.NewValidatorSet h.Valsets) hsig commit.Precommits 0 0
    (by intro j; rw [Nat.zero_add]) hval (by decide)
  simp only [Nat.zero_add, zero_add] at htally
  have htally1 : tallyPrecommits tm prev.Header.ChainID commit (tm.NewValidatorSet h.Valsets)
      commit.Precommits 0 0
      = .ok (wrap64 (votedSum commit (tm.NewValidatorSet h.Valsets))) := htally
  refine ⟨htally1, fun hfit => ?_, ?_⟩
  · rw [htally1, wrap64_eq_self _ hfit.1 hfit.2]
  · rw [verifyHeader_preconditions_hold tm prev h commit hc hpre, htally1]

theorem tally_equals_sum_of_votes_witness :
    tallyPrecommits demoTendermint demoGenesis.Header.ChainID
        { BlockID := { Hash := [2, 2, 2, 1] },
          Precommits := [some (demoPrecommit 11 0 2 [2, 2, 2, 1] true),
                         some (demoPrecommit 12 1 2 [2, 2, 2, 1] true),
                         some (demoPrecommit 13 2 2 [2, 2, 2, 1] true)] }
        (demoTendermint.NewValidatorSet demoHeader2.Valsets)
        [some (demoPrecommit 11 0 2 [2, 2, 2, 1] true),
         some (demoPrecommit 12 1 2 [2, 2, 2, 1] true),
         some (demoPrecommit 13 2 2 [2, 2, 2, 1] true)] 0 0
      = .ok (wrap64 (votedSum
          { BlockID := { Hash := [2, 2, 2, 1] },
            Precommits := [some (demoPrecommit 11 0 2 [2, 2, 2, 1] true),
                           some (demoPrecommit 12 1 2 [2, 2, 2, 1] true),
                           some (demoPrecommit 13 2 2 [2, 2, 2, 1] true)] }
          (demoTendermint.NewValidatorSet demoHeader2.Valsets))) :=
  (tally_equals_sum_of_votes demoTendermint demoGenesis demoHeader2
    { BlockID := { Hash := [2, 2, 2, 1] },
      Precommits := [some (demoPrecommit 11 0 2 [2, 2, 2, 1] true),
                     some (demoPrecommit 12 1 2 [2, 2, 2, 1] true),
                     some (demoPrecommit 13 2 2 [2, 2, 2, 1] true)] }
    (by decide) (by decide)
    (by
      intro i precommit val hp hv
      rcases i with _ | _ | _ | i
      · cases hp; cases hv; rfl
      · cases hp; cases hv; rfl
      · cases hp; cases hv; rfl
      · cases hp)).1

/-! ### The chain id of the sign bytes -/

/-- The tally loop reads the sign-bytes function at the chain id it is given only. -/
theorem tallyPrecommits_signBytes_congr (tm : Tendermint)
    (f : Commit → String → Nat → Bytes) (chainID : String) (commit : Commit)
    (valset : ValidatorSet)
    (hf : ∀ idx, f commit chainID idx = tm.VoteSignBytes commit chainID idx)
    (ps : List (Option Vote)) (start : Nat) (tallied : Int) :
    tallyPrecommits { tm with VoteSignBytes := f } chainID commit valset ps start tallied
      = tallyPrecommits tm chainID commit valset ps start tallied := by
  induction ps generalizing start tallied with
  | nil => rfl
  | cons q rest ih =>
    cases q with
    | none =>
      simp only [tallyPrecommits]
      exact ih (start + 1) tallied
    | some precommit =>
      simp only [tallyPrecommits, hf]
      cases valset.GetByIndex start with
      | none => rfl
      | some val =>
        simp only
        split
        · rfl
        · exact ih (start + 1) _

/-- The checks on a header read the sign-bytes function at the chain id of the stored
header only. -/
theorem verifyHeader_signBytes_congr (tm : Tendermint) (f : Commit → String → Nat → Bytes)
    (prevHeader myHeader : CosmosHeader)
    (hf : ∀ commit idx, f commit prevHeader.Header.ChainID idx
      = tm.VoteSignBytes commit prevHeader.Header.ChainID idx) :
    verifyHeader { tm with VoteSignBytes := f } prevHeader myHeader
      = verifyHeader tm prevHeader myHeader := by
  unfold verifyHeader
  cases myHeader.Commit with
  | none => rfl
  | some commit =>
    simp only
    rw [tallyPrecommits_signBytes_congr tm f prevHeader.Header.ChainID commit _
      (hf commit)]

/-- A tally loop that succeeds found, for every present precommit it visited, a validator
at its position under whose key the signature verifies over the sign bytes for the chain
id the loop was given. -/
theorem tallyPrecommits_ok_verified (tm : Tendermint) (chainID : String) (commit : Commit)
    (valset : ValidatorSet) (ps : List (Option Vote)) (start : Nat) (tallied result : Int)
    (h : tallyPrecommits tm chainID commit valset ps start tallied = .ok result)
    (j : Nat) (precommit : Vote) (hp : ps.get? j = some (some precommit)) :
    ∃ val, valset.GetByIndex (start + j) = some val
      ∧ tm.VerifyBytes val.PubKey (tm.VoteSignBytes commit chainID (start + j))
          precommit.Signature = true := by
  cases hg : valset.GetByIndex (start + j) with
  | none =>
    exfalso
    induction ps generalizing start tallied j with
    | nil => simp at hp
    | cons q rest ih =>
      cases j with
      | zero =>
        simp only [List.get?_cons_zero, Option.some.injEq] at hp
        subst hp
        rw [Nat.add_zero] at hg
        simp [tallyPrecommits, hg] at h
      | succ j =>
        simp only [List.get?_cons_succ] at hp
        have hidx : start + 1 + j = start + (j + 1) := by omega
        cases q with
        | none =>
          simp only [tallyPrecommits] at h
          exact ih (start + 1) tallied h j hp (by rw [hidx]; exact hg)
        | some q =>
          simp only [tallyPrecommits] at h
          cases hs : valset.GetByIndex start with
          | none => simp [hs] at h
          | some val1 =>
            simp only [hs] at h
            split at h
            · cases h
            · exact ih (start + 1) _ h j hp (by rw [hidx]; exact hg)
  | some val =>
    refine ⟨val, rfl, ?_⟩
    cases hv : tm.VerifyBytes val.PubKey (tm.VoteSignBytes commit chainID (start + j))
        precommit.Signature with
    | true => rfl
    | false =>
      obtain ⟨e, he⟩ := tallyPrecommits_bad_signature tm chainID commit valset ps start
        tallied j precommit val hp hg hv
      rw [he] at h
      cases h

/-- A header that passes `verifyHeader` against `prevHeader` has, for every present
precommit, a validator at its position under whose key the signature verifies over the
sign bytes built with the chain id of `prevHeader`. -/
theorem verifyHeader_none_verified (tm : Tendermint) (prevHeader myHeader : CosmosHeader)
    (commit : Commit) (hc : myHeader.Commit = some commit)
    (h : verifyHeader tm prevHeader myHeader = none) (idx : Nat) (precommit : Vote)
    (hp : commit.Precommits.get? idx = some (some precommit)) :
    ∃ val, (tm.NewValidatorSet myHeader.Valsets).GetByIndex idx = some val
      ∧ tm.VerifyBytes val.PubKey (tm.VoteSignBytes commit prevHeader.Header.ChainID idx)
          precommit.Signature = true := by
  obtain ⟨_, _, commit1, hc1, _, _, _, _, tallied, ht, _⟩ :=
    verifyHeader_none tm prevHeader myHeader h
  rw [hc] at hc1
  cases hc1
  have := tallyPrecommits_ok_verified tm prevHeader.Header.ChainID commit
    (tm.NewValidatorSet myHeader.Valsets) commit.Precommits 0 0 tallied ht idx precommit hp
  rw [Nat.zero_add] at this
  exact this

/-- The iteration of the loop on a header that reaches the verification: its outcome is
that of `verifyHeader` against the header stored at the key height. -/
theorem syncHeader_verdict (tm : Tendermint) (chainID : Nat) (db : CacheDB) (v : Bytes)
    (h : CosmosHeader) (keyHeights : KeyHeights) (keyHeight : Int) (prev : CosmosHeader)
    (hu : tm.UnmarshalBinaryBare v = some h)
    (hnew : db.header chainID h.Header.Height = none)
    (hk : GetKeyHeights db chainID = some keyHeights)
    (hf : keyHeights.FindKeyHeight h.Header.Height = some keyHeight)
    (hprev : GetHeaderByHeight db keyHeight chainID = some prev) :
    syncHeader tm chainID db v =
      match verifyHeader tm prev h with
      | some e => .error e
      | none =>
        .ok (PutKeyHeights (putHeader db chainID h) chainID
          (keyHeights.AddNewHeight h.Header.Height)) := by
  unfold syncHeader
  have hnew1 : GetHeaderByHeight db h.Header.Height chainID = none := hnew
  simp only [hu, hnew1, hk, hf, hprev]

/-- C21. For a header `h` that reaches the verification of `SyncBlockHeader`, with `prev`
the header stored at its key height: the iteration accepts or rejects `h` as the checks
against `prev` do; whatever chain id `h` carries, passing the checks means that the
signature of every present precommit verifies over the sign bytes built with
`prev.Header.ChainID`, and a present precommit whose signature does not verify over those
sign bytes makes the checks fail; the result is the same for every sign-bytes function
that agrees with the library's on `prev.Header.ChainID` for the commit of `h`; and two
headers that differ only in `Header.ChainID` get verdicts that differ at most in the check
of the commit hash against the header hash (the chain id is not compared with the stored
one). -/
theorem sign_bytes_use_stored_chain_id (tm : Tendermint) (chainID : Nat) (db : CacheDB)
    (v : Bytes) (h : CosmosHeader) (keyHeights : KeyHeights) (keyHeight : Int)
    (prev : CosmosHeader) (commit : Commit)
    (hu : tm.UnmarshalBinaryBare v = some h)
    (hnew : db.header chainID h.Header.Height = none)
    (hk : GetKeyHeights db chainID = some keyHeights)
    (hf : keyHeights.FindKeyHeight h.Header.Height = some keyHeight)
    (hprev : GetHeaderByHeight db keyHeight chainID = some prev)
    (hc : h.Commit = some commit) :
    (syncHeader tm chainID db v =
        match verifyHeader tm prev h with
        | some e => .error e
        | none =>
          .ok (PutKeyHeights (putHeader db chainID h) chainID
            (keyHeights.AddNewHeight h.Header.Height)))
      ∧ (∀ cid : String,
          (verifyHeader tm prev { h with Header := { h.Header with ChainID := cid } } = none →
            ∀ idx precommit, commit.Precommits.get? idx = some (some precommit) →
              ∃ val, (tm.NewValidatorSet h.Valsets).GetByIndex idx = some val
                ∧ tm.VerifyBytes val.PubKey
                    (tm.VoteSignBytes commit prev.Header.ChainID idx)
                    precommit.Signature = true)
          ∧ (∀ idx precommit val, commit.Precommits.get? idx = some (some precommit) →
              (tm.NewValidatorSet h.Valsets).GetByIndex idx = some val →
              tm.VerifyBytes val.PubKey (tm.VoteSignBytes commit prev.Header.ChainID idx)
                precommit.Signature = false →
              ∃ e, verifyHeader tm prev
                { h with Header := { h.Header with ChainID := cid } } = some e))
      ∧ (∀ f : Commit → String → Nat → Bytes,
          (∀ idx, f commit prev.Header.ChainID idx
            = tm.VoteSignBytes commit prev.Header.ChainID idx) →
          syncHeader { tm with VoteSignBytes := f } chainID db v = syncHeader tm chainID db v)
      ∧ (∀ cid : String,
          verifyHeader tm prev { h with Header := { h.Header with ChainID := cid } }
              = verifyHeader tm prev h
            ∨ verifyHeader tm prev { h with Header := { h.Header with ChainID := cid } }
              = some .commitHashNotRight
            ∨ verifyHeader tm prev h = some .commitHashNotRight) := by
  refine ⟨syncHeader_verdict tm chainID db v h keyHeights keyHeight prev hu hnew hk hf hprev,
    fun cid => ⟨?_, ?_⟩, ?_, ?_⟩
  · intro hacc idx precommit hp
    exact verifyHeader_none_verified tm prev
      { h with Header := { h.Header with ChainID := cid } } commit hc hacc idx precommit hp
  · intro idx precommit val hp hval hbad
    exact verifyHeader_bad_signature tm prev
      { h with Header := { h.Header with ChainID := cid } } commit idx precommit val hc hp
      hval hbad
  · intro f hf1
    rw [syncHeader_verdict tm chainID db v h keyHeights keyHeight prev hu hnew hk hf hprev,
      syncHeader_verdict { tm with VoteSignBytes := f } chainID db v h keyHeights keyHeight
        prev hu hnew hk hf hprev]
    have hver : verifyHeader { tm with VoteSignBytes := f } prev h = verifyHeader tm prev h := by
      unfold verifyHeader
      simp only [hc]
      rw [tallyPrecommits_signBytes_congr tm f prev.Header.ChainID commit _ hf1]
    rw [hver]
  · intro cid
    unfold verifyHeader
    simp only
    cases h.Commit with
    | none => exact Or.inl rfl
    | some commit1 =>
      simp only
      split_ifs <;>
        first
          | exact Or.inl rfl
          | exact Or.inr (Or.inl rfl)
          | exact Or.inr (Or.inr rfl)

theorem sign_bytes_use_stored_chain_id_witness :
    (∀ idx precommit,
        ({ BlockID := { Hash := [13, 2, 2, 2, 1] },
           Precommits := [some (demoPrecommitFor 4 11 0 2 [13, 2, 2, 2, 1]),
                          some (demoPrecommitFor 4 12 1 2 [13, 2, 2, 2, 1]),
                          some (demoPrecommitFor 4 13 2 2 [13, 2, 2, 2, 1])] }
          : Commit).Precommits.get? idx = some (some precommit) →
        ∃ val, (demoTendermintChainHash.NewValidatorSet
            demoHeaderOtherChain.Valsets).GetByIndex idx = some val
          ∧ demoTendermintChainHash.VerifyBytes val.PubKey
              (demoTendermintChainHash.VoteSignBytes
                { BlockID := { Hash := [13, 2, 2, 2, 1] },
                  Precommits := [some (demoPrecommitFor 4 11 0 2 [13, 2, 2, 2, 1]),
                                 some (demoPrecommitFor 4 12 1 2 [13, 2, 2, 2, 1]),
                                 some (demoPrecommitFor 4 13 2 2 [13, 2, 2, 2, 1])] }
                demoGenesis.Header.ChainID idx)
              precommit.Signature = true)
      ∧ syncHeader { demoTendermintChainHash with VoteSignBytes := demoVoteSignBytesFourOnly }
          5 demoDB1 [0]
        = syncHeader demoTendermintChainHash 5 demoDB1 [0] :=
  have key := sign_bytes_use_stored_chain_id demoTendermintChainHash 5 demoDB1 [0]
    demoHeaderOtherChain { HeightList := [1] } 1 demoGenesis
    { BlockID := { Hash := [13, 2, 2, 2, 1] },
      Precommits := [some (demoPrecommitFor 4 11 0 2 [13, 2, 2, 2, 1]),
                     some (demoPrecommitFor 4 12 1 2 [13, 2, 2, 2, 1]),
                     some (demoPrecommitFor 4 13 2 2 [13, 2, 2, 2, 1])] }
    (by decide) (by decide) (by decide) (by decide) (by decide) (by decide)
  ⟨(key.2.1 "another-chain").1 (by decide), key.2.2.1 demoVoteSignBytesFourOnly (fun _ => rfl)⟩

/-- With a header hash that covers the chain id, a header of the chain "another-chain"
whose precommits are signed for the chain id of the stored header "demo" passes the checks
and is accepted by the iteration, although its first precommit does not verify over the
sign bytes built with its own chain id. -/
theorem header_signed_for_stored_chain_id_accepted :
    demoHeaderOtherChain.Header.ChainID ≠ demoGenesis.Header.ChainID
      ∧ demoTendermintChainHash.HeaderHash demoHeaderOtherChain.Header
          ≠ demoTendermintChainHash.HeaderHash
              { demoHeaderOtherChain.Header with ChainID := demoGenesis.Header.ChainID }
      ∧ verifyHeader demoTendermintChainHash demoGenesis demoHeaderOtherChain = none
      ∧ (∃ db1, syncHeader demoTendermintChainHash 5 demoDB1 [0] = .ok db1)
      ∧ demoTendermintChainHash.VerifyBytes (.ed25519 [11])
          (demoTendermintChainHash.VoteSignBytes
            { BlockID := { Hash := [13, 2, 2, 2, 1] },
              Precommits := [some (demoPrecommitFor 4 11 0 2 [13, 2, 2, 2, 1]),
                             some (demoPrecommitFor 4 12 1 2 [13, 2, 2, 2, 1]),
                             some (demoPrecommitFor 4 13 2 2 [13, 2, 2, 2, 1])] }
            demoHeaderOtherChain.Header.ChainID 0)
          (demoPrecommitFor 4 11 0 2 [13, 2, 2, 2, 1]).Signature = false :=
  ⟨by decide, by decide, by decide, ⟨_, rfl⟩, by decide⟩

/-- The same header with precommits signed for its own chain id is rejected for an invalid
signature, although its first precommit verifies over the sign bytes built with its own
chain id. -/
theorem header_signed_for_own_chain_id_rejected :
    verifyHeader demoTendermintChainHash demoGenesis demoHeaderOwnChain
        = some .invalidSignature
      ∧ syncHeader demoTendermintChainHash 5 demoDB1 [1] = .error .invalidSignature
      ∧ demoTendermintChainHash.VerifyBytes (.ed25519 [11])
          (demoTendermintChainHash.VoteSignBytes
            { BlockID := { Hash := [13, 2, 2, 2, 1] },
              Precommits := [some (demoPrecommitFor 13 11 0 2 [13, 2, 2, 2, 1]),
                             some (demoPrecommitFor 13 12 1 2 [13, 2, 2, 2, 1]),
                             some (demoPrecommitFor 13 13 2 2 [13, 2, 2, 2, 1])] }
            demoHeaderOwnChain.Header.ChainID 0)
          (demoPrecommitFor 13 11 0 2 [13, 2, 2, 2, 1]).Signature = true :=
  ⟨by decide, rfl, by decide⟩

/-! ### The validators of the tally loop -/

/-- When every position the loop visits has a validator, the loop does not dereference a
missing validator. -/
theorem tallyPrecommits_no_nilPointer (tm : Tendermint) (chainID : String) (commit : Commit)
    (valset : ValidatorSet) (ps : List (Option Vote)) (start : Nat) (tallied : Int)
    (hval : ∀ j, j < ps.length → ∃ val, valset.GetByIndex (start + j) = some val) :
    tallyPrecommits tm chainID commit valset ps start tallied ≠ .error .nilPointer := by
  induction ps generalizing start tallied with
  | nil =>
    simp [tallyPrecommits]
  | cons q rest ih =>
    have hvalrest : ∀ j, j < rest.length →
        ∃ val, valset.GetByIndex (start + 1 + j) = some val := by
      intro j hj
      obtain ⟨val, hv⟩ := hval (j + 1) (by simp only [List.length_cons]; omega)
      exact ⟨val, by rw [← hv]; congr 1; omega⟩
    cases q with
    | none =>
      simp only [tallyPrecommits]
      exact ih (start + 1) tallied hvalrest
    | some precommit =>
      obtain ⟨val, hg⟩ := hval 0 (by simp)
      rw [Nat.add_zero] at hg
      simp only [tallyPrecommits, hg]
      split
      · simp
      · exact ih (start + 1) _ hvalrest

theorem preconditionError_ne_nilPointer (tm : Tendermint) (prevHeader myHeader : CosmosHeader)
    (commit : Commit) :
    preconditionError tm prevHeader myHeader commit ≠ some .nilPointer := by
  unfold preconditionError
  split_ifs <;> simp

/-- C22. In the vote-tally loop of `SyncBlockHeader` every index visited has a validator:
when `valset.Size()` equals `len(commit.Precommits)`, `valset.GetByIndex(idx)` returns a
validator for every index `idx` of `commit.Precommits`; and since the loop is reached only
then, the checks on a header with a commit, and the iteration of the handler on it, never
fail on a missing validator. -/
theorem tally_loop_validator_present (tm : Tendermint) (prev h : CosmosHeader)
    (commit : Commit) (hc : h.Commit = some commit) :
    ((tm.NewValidatorSet h.Valsets).Size = commit.Precommits.length →
        ∀ idx, idx < commit.Precommits.length →
          ∃ val, (tm.NewValidatorSet h.Valsets).GetByIndex idx = some val)
      ∧ verifyHeader tm prev h ≠ some .nilPointer
      ∧ ∀ chainID db v, tm.UnmarshalBinaryBare v = some h →
          syncHeader tm chainID db v ≠ .error .nilPointer := by
  have hget : ∀ valset : ValidatorSet, valset.Size = commit.Precommits.length →
      ∀ idx, idx < commit.Precommits.length → ∃ val, valset.GetByIndex idx = some val := by
    intro valset hsize idx hidx
    unfold ValidatorSet.GetByIndex
    unfold ValidatorSet.Size at hsize
    exact ⟨_, List.get?_eq_get (by omega)⟩
  have hver : ∀ prev1 : CosmosHeader, verifyHeader tm prev1 h ≠ some .nilPointer := by
    intro prev1
    cases hpe : preconditionError tm prev1 h commit with
    | some e =>
      rw [verifyHeader_precondition tm prev1 h commit e hc hpe]
      intro he
      rw [he] at hpe
      exact preconditionError_ne_nilPointer tm prev1 h commit hpe
    | none =>
      rw [verifyHeader_preconditions_hold tm prev1 h commit hc hpe]
      have hsize : (tm.NewValidatorSet h.Valsets).Size = commit.Precommits.length := by
        unfold preconditionError at hpe
        split_ifs at hpe with a1 a2 a3 a4 a5 a6
        exact (not_not.mp a6).symm
      have hno := tallyPrecommits_no_nilPointer tm prev1.Header.ChainID commit
        (tm.NewValidatorSet h.Valsets) commit.Precommits 0 0
        (by intro j hj; rw [Nat.zero_add]; exact hget _ hsize j hj)
      cases ht : tallyPrecommits tm prev1.Header.ChainID commit
          (tm.NewValidatorSet h.Valsets) commit.Precommits 0 0 with
      | error e =>
        simp only
        intro he
        rw [ht] at hno
        exact hno (by rw [Option.some.inj he])
      | ok tallied =>
        simp only
        split <;> simp
  refine ⟨hget _, hver prev, ?_⟩
  intro chainID db v hu
  unfold syncHeader
  simp only [hu]
  cases GetHeaderByHeight db h.Header.Height chainID with
  | some old => simp
  | none =>
    simp only
    cases GetKeyHeights db chainID with
    | none => simp
    | some keyHeights =>
      simp only
      cases keyHeights.FindKeyHeight h.Header.Height with
      | none => simp
      | some keyHeight =>
        simp only
        cases GetHeaderByHeight db keyHeight chainID with
        | none => simp
        | some prevHeader =>
          simp only
          cases hv : verifyHeader tm prevHeader h with
          | none => simp
          | some e =>
            simp only
            intro he
            have : e = .nilPointer := by
              injection he
            rw [this] at hv
            exact hver prevHeader hv

theorem tally_loop_validator_present_witness :
    (∀ idx, idx < 3 →
        ∃ val, (demoTendermint.NewValidatorSet demoHeader3.Valsets).GetByIndex idx = some val)
      ∧ verifyHeader demoTendermint demoGenesis demoHeader3 ≠ some .nilPointer
      ∧ syncHeader demoTendermint 5 demoDB1 [3] ≠ .error .nilPointer :=
  have key := tally_loop_validator_present demoTendermint demoGenesis demoHeader3
    { BlockID := { Hash := [3, 2, 2, 1] },
      Precommits := [some (demoPrecommit 11 0 3 [3, 2, 2, 1] true),
                     some (demoPrecommit 12 1 3 [3, 2, 2, 1] true),
                     some (demoPrecommit 13 2 3 [7] false)] } (by decide)
  ⟨key.1 (by decide), key.2.1, key.2.2 5 demoDB1 [3] (by decide)⟩

/-! ### `KeyHeights` under `SyncBlockHeader` -/

theorem mem_addNewHeight (kh : KeyHeights) (height x : Int) :
    x ∈ (kh.AddNewHeight height).HeightList ↔ x = height ∨ x ∈ kh.HeightList := by
  unfold KeyHeights.AddNewHeight
  split
  · next hin =>
    constructor
    · exact Or.inr
    · rintro (rfl | hx)
      · exact hin
      · exact hx
  · exact List.mem_orderedInsert _

/-- A successful iteration keeps every key height. -/
theorem syncHeader_keyHeights_mono (tm : Tendermint) (chainID : Nat) (db db1 : CacheDB)
    (v : Bytes) (h : syncHeader tm chainID db v = .ok db1) (c : Nat) (kh : KeyHeights)
    (x : Int) (hk : db.keyHeights c = some kh) (hx : x ∈ kh.HeightList) :
    ∃ kh1, db1.keyHeights c = some kh1 ∧ x ∈ kh1.HeightList := by
  obtain ⟨myHeader, _, ⟨_, _, rfl⟩ | ⟨_, keyHeights, _, _, hk0, _, _, _, rfl⟩⟩ :=
    syncHeader_ok_cases tm chainID db db1 v h
  · exact ⟨kh, hk, hx⟩
  · by_cases hc : c = chainID
    · subst hc
      rw [hk0] at hk
      cases hk
      refine ⟨kh.AddNewHeight myHeader.Header.Height, by simp [PutKeyHeights], ?_⟩
      exact (mem_addNewHeight _ _ _).mpr (Or.inr hx)
    · exact ⟨kh, by simp [PutKeyHeights, putHeader, hc, hk], hx⟩

/-- The loop keeps every key height, whether it ends with an error or not. -/
theorem syncHeaders_keyHeights_mono (tm : Tendermint) (chainID : Nat) (db : CacheDB)
    (vs : List Bytes) (c : Nat) (kh : KeyHeights) (x : Int)
    (hk : db.keyHeights c = some kh) (hx : x ∈ kh.HeightList) :
    ∃ kh1, (syncHeaders tm chainID db vs).1.keyHeights c = some kh1
      ∧ x ∈ kh1.HeightList := by
  induction vs generalizing db kh with
  | nil => exact ⟨kh, hk, hx⟩
  | cons v vs ih =>
    simp only [syncHeaders]
    cases hv : syncHeader tm chainID db v with
    | error e => exact ⟨kh, hk, hx⟩
    | ok db1 =>
      obtain ⟨kh1, hk1, hx1⟩ := syncHeader_keyHeights_mono tm chainID db db1 v hv c kh x hk hx
      exact ih db1 kh1 hk1 hx1

/-- C19. Every header newly accepted by a successful `SyncBlockHeader` call (no header
stored at its height when the loop reaches it) has its height in the chain's `KeyHeights`
after the call, whatever its `validators_hash` and `next_validators_hash` are, and the
call, successful or not, removes no height that was in `KeyHeights` before. -/
theorem accepted_height_is_key_height (host : Host) (tm : Tendermint)
    (native : NativeService) :
    (∀ params pre post v h,
      host.DeserializeBlockParam native.Input = some params →
      params.Headers = pre ++ v :: post →
      tm.UnmarshalBinaryBare v = some h →
      (syncHeaders tm params.ChainID native.CacheDB pre).1.header params.ChainID
        h.Header.Height = none →
      (SyncBlockHeader host tm native).2 = none →
      ∃ kh, GetKeyHeights (SyncBlockHeader host tm native).1 params.ChainID = some kh
        ∧ h.Header.Height ∈ kh.HeightList)
      ∧ (∀ c kh x, GetKeyHeights native.CacheDB c = some kh → x ∈ kh.HeightList →
          ∃ kh1, GetKeyHeights (SyncBlockHeader host tm native).1 c = some kh1
            ∧ x ∈ kh1.HeightList) := by
  constructor
  · intro params pre post v h hp hh hu hnew hok
    unfold SyncBlockHeader at hok ⊢
    simp only [hp, hh] at hok ⊢
    obtain ⟨db1, hv⟩ := syncHeaders_ok_split tm params.ChainID native.CacheDB pre post v hok
    have hrun : syncHeaders tm params.ChainID native.CacheDB (pre ++ v :: post)
        = syncHeaders tm params.ChainID db1 post := by
      rw [syncHeaders_append]
      rcases hs : syncHeaders tm params.ChainID native.CacheDB pre with ⟨dbk, _ | e1⟩
      · rw [hs] at hv
        simp only [syncHeaders, hv]
      · rw [syncHeaders_append, hs] at hok
        cases hok
    rw [hrun]
    obtain ⟨myHeader, hu1, hcase⟩ := syncHeader_ok_cases tm params.ChainID _ db1 v hv
    rw [hu] at hu1
    cases hu1
    rcases hcase with ⟨old, hs, _⟩ | ⟨_, keyHeights, _, _, _, _, _, _, rfl⟩
    · rw [hnew] at hs
      cases hs
    · exact syncHeaders_keyHeights_mono tm params.ChainID _ post params.ChainID
        (keyHeights.AddNewHeight h.Header.Height) h.Header.Height
        (by simp [PutKeyHeights]) ((mem_addNewHeight _ _ _).mpr (Or.inl rfl))
  · intro c kh x hk hx
    unfold SyncBlockHeader
    cases host.DeserializeBlockParam native.Input with
    | none => exact ⟨kh, hk, hx⟩
    | some params =>
      exact syncHeaders_keyHeights_mono tm params.ChainID native.CacheDB params.Headers c kh x
        hk hx

theorem accepted_height_is_key_height_witness :
    (∃ kh, GetKeyHeights (SyncBlockHeader demoHost demoTendermint
        { CacheDB := demoDB1, Input := [5, 1, 2], Signers := [] }).1 5 = some kh
        ∧ demoHeader2.Header.Height ∈ kh.HeightList)
      ∧ demoHeader2.Header.ValidatorsHash = demoHeader2.Header.NextValidatorsHash
      ∧ ∃ kh1, GetKeyHeights (SyncBlockHeader demoHost demoTendermint
          { CacheDB := demoDB1, Input := [5, 1, 2], Signers := [] }).1 5 = some kh1
          ∧ (1 : Int) ∈ kh1.HeightList :=
  ⟨(accepted_height_is_key_height demoHost demoTendermint
      { CacheDB := demoDB1, Input := [5, 1, 2], Signers := [] }).1
      { ChainID := 5, Address := [], Headers := [[1], [2]] } [[1]] [] [2] demoHeader2
      (by decide) (by decide) (by decide) (by decide) (by decide),
    by decide,
    (accepted_height_is_key_height demoHost demoTendermint
      { CacheDB := demoDB1, Input := [5, 1, 2], Signers := [] }).2
      5 { HeightList := [1] } 1 (by decide) (by decide)⟩

/-- A loop that ends with an error ran successfully over the headers before the failing one,
failed in the iteration for it, and leaves the cache DB of the headers before it. -/
theorem syncHeaders_error_split (tm : Tendermint) (chainID : Nat) (db : CacheDB)
    (vs : List Bytes) (e : SyncError) (herr : (syncHeaders tm chainID db vs).2 = some e) :
    ∃ pre v post, vs = pre ++ v :: post
      ∧ (syncHeaders tm chainID db pre).2 = none
      ∧ syncHeader tm chainID (syncHeaders tm chainID db pre).1 v = .error e
      ∧ (syncHeaders tm chainID db vs).1 = (syncHeaders tm chainID db pre).1 := by
  induction vs generalizing db with
  | nil => simp [syncHeaders] at herr
  | cons w ws ih =>
    cases hw : syncHeader tm chainID db w with
    | error e1 =>
      simp only [syncHeaders, hw, Option.some.injEq] at herr
      subst herr
      exact ⟨[], w, ws, rfl, rfl, hw, by simp [syncHeaders, hw]⟩
    | ok db1 =>
      have hrun : ∀ us, syncHeaders tm chainID db (w :: us) = syncHeaders tm chainID db1 us := by
        intro us
        simp only [syncHeaders, hw]
      rw [hrun] at herr
      obtain ⟨pre, v, post, hsplit, hpre, hv, hst⟩ := ih db1 herr
      refine ⟨w :: pre, v, post, by rw [hsplit]; rfl, ?_, ?_, ?_⟩
      · rw [hrun]; exact hpre
      · rw [hrun]; exact hv
      · rw [hrun, hrun]; exact hst

/-- C5, amended. If `SyncBlockHeader` returns an error, either the parameters did not
deserialize and the cache DB is untouched, or the input splits into the headers before the
failing one, the failing header and the rest, and the cache DB the handler leaves is the
one the headers before the failing one produced: the failing header and the headers after
it write nothing, while every header before it is stored (the handler does not undo the
headers it has accepted). -/
theorem syncBlockHeader_error_state (host : Host) (tm : Tendermint) (native : NativeService)
    (e : SyncError) (herr : (SyncBlockHeader host tm native).2 = some e) :
    (host.DeserializeBlockParam native.Input = none
        ∧ (SyncBlockHeader host tm native).1 = native.CacheDB)
      ∨ ∃ params pre v post,
          host.DeserializeBlockParam native.Input = some params
          ∧ params.Headers = pre ++ v :: post
          ∧ (syncHeaders tm params.ChainID native.CacheDB pre).2 = none
          ∧ syncHeader tm params.ChainID
              (syncHeaders tm params.ChainID native.CacheDB pre).1 v = .error e
          ∧ (SyncBlockHeader host tm native).1
              = (syncHeaders tm params.ChainID native.CacheDB pre).1
          ∧ ∀ w ∈ pre, ∃ myHeader stored, tm.UnmarshalBinaryBare w = some myHeader
              ∧ (SyncBlockHeader host tm native).1.header params.ChainID
                  myHeader.Header.Height = some stored := by
  unfold SyncBlockHeader at herr ⊢
  cases hp : host.DeserializeBlockParam native.Input with
  | none => exact Or.inl ⟨rfl, rfl⟩
  | some params =>
    simp only [hp] at herr ⊢
    obtain ⟨pre, v, post, hsplit, hpre, hv, hst⟩ :=
      syncHeaders_error_split tm params.ChainID native.CacheDB params.Headers e herr
    refine Or.inr ⟨params, pre, v, post, rfl, hsplit, hpre, hv, hst, ?_⟩
    rw [hst]
    exact syncHeaders_stored_after tm params.ChainID native.CacheDB _ pre (Prod.ext rfl hpre)

theorem syncBlockHeader_error_state_witness :
    (demoHost.DeserializeBlockParam [5, 2, 3] = none
        ∧ (SyncBlockHeader demoHost demoTendermint
            { CacheDB := demoDB1, Input := [5, 2, 3], Signers := [] }).1 = demoDB1)
      ∨ ∃ params pre v post,
          demoHost.DeserializeBlockParam [5, 2, 3] = some params
          ∧ params.Headers = pre ++ v :: post
          ∧ (syncHeaders demoTendermint params.ChainID demoDB1 pre).2 = none
          ∧ syncHeader demoTendermint params.ChainID
              (syncHeaders demoTendermint params.ChainID demoDB1 pre).1 v
              = .error .invalidSignature
          ∧ (SyncBlockHeader demoHost demoTendermint
              { CacheDB := demoDB1, Input := [5, 2, 3], Signers := [] }).1
              = (syncHeaders demoTendermint params.ChainID demoDB1 pre).1
          ∧ ∀ w ∈ pre, ∃ myHeader stored, demoTendermint.UnmarshalBinaryBare w = some myHeader
              ∧ (SyncBlockHeader demoHost demoTendermint
                  { CacheDB := demoDB1, Input := [5, 2, 3], Signers := [] }).1.header
                  params.ChainID myHeader.Header.Height = some stored :=
  syncBlockHeader_error_state demoHost demoTendermint
    { CacheDB := demoDB1, Input := [5, 2, 3], Signers := [] } .invalidSignature (by decide)

/-- C5 as stated fails: for the headers `demoHeader2`, `demoHeader3` on `demoDB1` the
handler returns the error of `demoHeader3`, and the cache DB it leaves holds `demoHeader2`,
which was not stored before the call, with its height added to `KeyHeights`. -/
theorem syncBlockHeader_error_leaves_earlier_header :
    (SyncBlockHeader demoHost demoTendermint
        { CacheDB := demoDB1, Input := [5, 2, 3], Signers := [] }).2 = some .invalidSignature
      ∧ demoDB1.header 5 2 = none
      ∧ (SyncBlockHeader demoHost demoTendermint
        { CacheDB := demoDB1, Input := [5, 2, 3], Signers := [] }).1.header 5 2
          = some demoHeader2
      ∧ demoDB1.keyHeights 5 = some { HeightList := [1] }
      ∧ (SyncBlockHeader demoHost demoTendermint
        { CacheDB := demoDB1, Input := [5, 2, 3], Signers := [] }).1.keyHeights 5
          = some { HeightList := [1, 2] } := by
  decide

/-! ### `SyncGenesisHeader` -/

/-- C6. `SyncGenesisHeader` returns an error and leaves the cache DB as it was (it writes
neither a header nor `KeyHeights`) whenever owner validation against the genesis
bookkeepers' address fails or `hasGenesis` reports a genesis header for
`params.ChainID`. -/
theorem genesis_rejected_without_owner_or_twice (host : Host) (tm : Tendermint)
    (native : NativeService)
    (h : (∃ operatorAddress, host.AddressFromBookkeepers = some operatorAddress
            ∧ host.ValidateOwner native operatorAddress = false)
          ∨ (∃ params, host.DeserializeGenesisParam native.Input = some params
            ∧ hasGenesis native.CacheDB params.ChainID = some true)) :
    (∃ e, (SyncGenesisHeader host tm native).2 = some e)
      ∧ (SyncGenesisHeader host tm native).1 = native.CacheDB := by
  unfold SyncGenesisHeader
  rcases h with ⟨addr, ha, hv⟩ | ⟨params, hp, hg⟩
  · cases hd : host.DeserializeGenesisParam native.Input with
    | none => exact ⟨⟨_, rfl⟩, rfl⟩
    | some params => simp [ha, hv]
  · simp only [hp]
    cases ha : host.AddressFromBookkeepers with
    | none => exact ⟨⟨_, rfl⟩, rfl⟩
    | some addr =>
      by_cases hv : host.ValidateOwner native addr = false
      · simp [hv]
      · simp only [hv, if_false]
        cases hu : tm.UnmarshalBinaryBare params.GenesisHeader with
        | none => exact ⟨⟨_, rfl⟩, rfl⟩
        | some header => simp only [hg]; exact ⟨⟨_, rfl⟩, rfl⟩

theorem genesis_rejected_without_owner_or_twice_witness :
    (∃ e, (SyncGenesisHeader demoHost demoTendermint
        { CacheDB := demoDB1, Input := [5, 2], Signers := [[7]] }).2 = some e)
      ∧ (SyncGenesisHeader demoHost demoTendermint
        { CacheDB := demoDB1, Input := [5, 2], Signers := [[7]] }).1 = demoDB1 :=
  genesis_rejected_without_owner_or_twice demoHost demoTendermint
    { CacheDB := demoDB1, Input := [5, 2], Signers := [[7]] }
    (Or.inr ⟨{ ChainID := 5, GenesisHeader := [2] }, by decide, by decide⟩)

/-- C7. After `SyncGenesisHeader` succeeds for the chain `params.ChainID` with the decoded
header `h0`, `h0` is the header stored for the chain at `h0.Header.Height` (and
`GetHeaderByHeight` returns it), and the `KeyHeights` stored for the chain hold
`h0.Header.Height` and no other height. -/
theorem genesis_success_writes (host : Host) (tm : Tendermint) (native : NativeService)
    (params : SyncGenesisHeaderParam) (h0 : CosmosHeader)
    (hp : host.DeserializeGenesisParam native.Input = some params)
    (hu : tm.UnmarshalBinaryBare params.GenesisHeader = some h0)
    (hok : (SyncGenesisHeader host tm native).2 = none) :
    GetHeaderByHeight (SyncGenesisHeader host tm native).1 h0.Header.Height params.ChainID
        = some h0
      ∧ GetKeyHeights (SyncGenesisHeader host tm native).1 params.ChainID
        = some { HeightList := [h0.Header.Height] } := by
  unfold SyncGenesisHeader at hok ⊢
  simp only [hp, hu] at hok ⊢
  cases ha : host.AddressFromBookkeepers with
  | none => simp [ha] at hok
  | some addr =>
    simp only [ha] at hok ⊢
    by_cases hv : host.ValidateOwner native addr = false
    · simp [hv] at hok
    · simp only [hv, if_false] at hok ⊢
      cases hg : native.CacheDB.genesis params.ChainID with
      | true => simp [hasGenesis, hg] at hok
      | false =>
        simp [hasGenesis, hg, putGenesisHeader, putHeader, PutKeyHeights, GetHeaderByHeight,
          GetKeyHeights, KeyHeights.AddNewHeight]

theorem genesis_success_writes_witness :
    GetHeaderByHeight demoDB1 demoGenesis.Header.Height 5 = some demoGenesis
      ∧ GetKeyHeights demoDB1 5 = some { HeightList := [demoGenesis.Header.Height] } :=
  genesis_success_writes demoHost demoTendermint
    { CacheDB := CacheDB.empty, Input := [5, 0], Signers := [[7]] }
    { ChainID := 5, GenesisHeader := [0] } demoGenesis (by decide) (by decide) (by decide)

/-- C20. `SyncGenesisHeader` performs no validator-set, commit or signature verification:
for an input whose parameters deserialize and whose `GenesisHeader` decodes, it succeeds
exactly when owner validation passes, `hasGenesis` reports no genesis header for the chain
and the store write succeeds, and its result is the same for every library with the same
decoder, whatever the hash, commit and signature functions answer. -/
theorem genesis_success_iff (host : Host) (tm : Tendermint) (native : NativeService)
    (params : SyncGenesisHeaderParam) (header : CosmosHeader)
    (hp : host.DeserializeGenesisParam native.Input = some params)
    (hu : tm.UnmarshalBinaryBare params.GenesisHeader = some header) :
    ((SyncGenesisHeader host tm native).2 = none ↔
        (∃ operatorAddress, host.AddressFromBookkeepers = some operatorAddress
          ∧ host.ValidateOwner native operatorAddress = true)
        ∧ hasGenesis native.CacheDB params.ChainID = some false
        ∧ ∃ db1, putGenesisHeader native.CacheDB header params.ChainID = some db1)
      ∧ ∀ tm1 : Tendermint, tm1.UnmarshalBinaryBare = tm.UnmarshalBinaryBare →
          SyncGenesisHeader host tm1 native = SyncGenesisHeader host tm native := by
  constructor
  · unfold SyncGenesisHeader
    simp only [hp, hu]
    cases ha : host.AddressFromBookkeepers with
    | none => simp
    | some addr =>
      simp only [Option.some.injEq, exists_eq_left']
      cases hv : host.ValidateOwner native addr with
      | false => simp
      | true =>
        simp only [Bool.true_eq_false, if_false, true_and]
        cases hg : native.CacheDB.genesis params.ChainID with
        | true => simp [hasGenesis, hg]
        | false => simp [hasGenesis, hg, putGenesisHeader]
  · intro tm1 h1
    unfold SyncGenesisHeader
    rw [h1]

theorem genesis_success_iff_witness :
    (SyncGenesisHeader demoHost demoTendermint
        { CacheDB := CacheDB.empty, Input := [5, 0], Signers := [[7]] }).2 = none
      ∧ SyncGenesisHeader demoHost demoTendermintAnySignature
          { CacheDB := CacheDB.empty, Input := [5, 0], Signers := [[7]] }
        = SyncGenesisHeader demoHost demoTendermint
          { CacheDB := CacheDB.empty, Input := [5, 0], Signers := [[7]] } :=
  have key := genesis_success_iff demoHost demoTendermint
    { CacheDB := CacheDB.empty, Input := [5, 0], Signers := [[7]] }
    { ChainID := 5, GenesisHeader := [0] } demoGenesis (by decide) (by decide)
  ⟨key.1.mpr ⟨⟨[7], by decide, by decide⟩, by decide, ⟨_, rfl⟩⟩,
   key.2 demoTendermintAnySignature rfl⟩

/-! ### `CommitmentOp.Run` -/

/-- C10. `Run` called with the single argument `[v]` succeeds if and only if
`Proof.Calculate()` yields a root `r` and `ics23.VerifyMembership(op.Spec, r, op.Proof,
op.Key, v)` is true, and what it then returns is exactly the one-element list `[r]`. -/
theorem run_one_arg_iff_membership (ics : Ics23) (op : CommitmentOp) (v : Bytes)
    (out : List Bytes) :
    op.Run ics [v] = .ok out ↔
      ∃ proof r, op.Proof = some proof ∧ ics.Calculate proof = some r
        ∧ ics.VerifyMembership op.Spec r proof op.Key v = true ∧ out = [r] := by
  unfold CommitmentOp.Run
  cases hp : op.Proof with
  | none => simp
  | some proof =>
    simp only [Option.some.injEq, exists_and_left, exists_eq_left']
    cases hc : ics.Calculate proof with
    | none => simp
    | some root =>
      simp only [Option.some.injEq, exists_eq_left']
      by_cases hv : ics.VerifyMembership op.Spec root proof op.Key v = false
      · simp [hv]
      · have hv1 : ics.VerifyMembership op.Spec root proof op.Key v = true := by
          simpa using hv
        simp only [hv1, Bool.true_eq_false, if_false, Except.ok.injEq, true_and]
        exact eq_comm

/-- C11. `Run` called with an empty argument list succeeds if and only if
`Proof.Calculate()` yields a root `r` and `ics23.VerifyNonMembership(op.Spec, r, op.Proof,
op.Key)` is true, and what it then returns is exactly the one-element list `[r]`. -/
theorem run_no_arg_iff_non_membership (ics : Ics23) (op : CommitmentOp) (out : List Bytes) :
    op.Run ics [] = .ok out ↔
      ∃ proof r, op.Proof = some proof ∧ ics.Calculate proof = some r
        ∧ ics.VerifyNonMembership op.Spec r proof op.Key = true ∧ out = [r] := by
  unfold CommitmentOp.Run
  cases hp : op.Proof with
  | none => simp
  | some proof =>
    simp only [Option.some.injEq, exists_and_left, exists_eq_left']
    cases hc : ics.Calculate proof with
    | none => simp
    | some root =>
      simp only [Option.some.injEq, exists_eq_left']
      cases hv : ics.VerifyNonMembership op.Spec root proof op.Key with
      | false => simp
      | true =>
        simp only [Bool.true_eq_false, if_false, Except.ok.injEq, true_and]
        exact eq_comm

/-- C12. For every `CommitmentOp` and every argument list of length 2 or more, `Run`
returns an error and no root, whatever the proof, key and spec are; when the root of the
proof can be calculated the error is the one for the number of arguments. -/
theorem run_many_args_error (ics : Ics23) (op : CommitmentOp) (args : List Bytes)
    (hlen : 2 ≤ args.length) :
    (∃ e, op.Run ics args = .error e)
      ∧ ∀ proof root, op.Proof = some proof → ics.Calculate proof = some root →
          op.Run ics args = .error .argsLength := by
  obtain ⟨a, b, rest, rfl⟩ : ∃ a b rest, args = a :: b :: rest := by
    match args, hlen with
    | a :: b :: rest, _ => exact ⟨a, b, rest, rfl⟩
  unfold CommitmentOp.Run
  cases hp : op.Proof with
  | none => exact ⟨⟨_, rfl⟩, fun _ _ h => by cases h⟩
  | some proof =>
    dsimp only
    cases hc : ics.Calculate proof with
    | none =>
      refine ⟨⟨_, rfl⟩, fun proof1 root h1 h2 => ?_⟩
      cases h1
      rw [hc] at h2
      cases h2
    | some root => exact ⟨⟨_, rfl⟩, fun _ _ _ _ => rfl⟩

theorem run_many_args_error_witness :
    (∃ e, demoOp.Run demoIcs23 [[2], [2]] = .error e)
      ∧ ∀ proof root, demoOp.Proof = some proof → demoIcs23.Calculate proof = some root →
          demoOp.Run demoIcs23 [[2], [2]] = .error .argsLength :=
  run_many_args_error demoIcs23 demoOp [[2], [2]] (by decide)


/-! ### `CommitmentOpDecoder` -/

/-- What a successful `CommitmentOpDecoder` call returns. -/
theorem commitmentOpDecoder_ok (lib : Ics23Codec) (pop : ProofOp) (op : CommitmentOp)
    (h : CommitmentOpDecoder lib pop = .ok op) :
    ∃ spec proof,
      (pop.OpType = ProofOpIAVLCommitment ∧ spec = lib.IavlSpec
        ∨ pop.OpType ≠ ProofOpIAVLCommitment ∧ pop.OpType = ProofOpSimpleMerkleCommitment
          ∧ spec = lib.TendermintSpec)
      ∧ lib.Unmarshal pop.Data = some proof
      ∧ op = { OpType := pop.OpType, Key := pop.Key, Spec := some spec,
               Proof := some proof } := by
  unfold CommitmentOpDecoder at h
  have hdec : ∀ spec, (match lib.Unmarshal pop.Data with
      | none => (.error .unmarshal : Except DecodeError CommitmentOp)
      | some proof =>
        .ok { OpType := pop.OpType, Key := pop.Key, Spec := some spec,
              Proof := some proof }) = .ok op →
      ∃ proof, lib.Unmarshal pop.Data = some proof
        ∧ op = { OpType := pop.OpType, Key := pop.Key, Spec := some spec,
                 Proof := some proof } := by
    intro spec hs
    cases hu : lib.Unmarshal pop.Data with
    | none => simp [hu] at hs
    | some proof =>
      simp only [hu, Except.ok.injEq] at hs
      exact ⟨proof, rfl, hs.symm⟩
  by_cases h1 : pop.OpType = ProofOpIAVLCommitment
  · simp only [h1, if_true] at h
    obtain ⟨proof, hu, hop⟩ := hdec lib.IavlSpec (by simpa only [h1] using h)
    exact ⟨_, proof, Or.inl ⟨h1, rfl⟩, hu, by simpa only [h1] using hop⟩
  · by_cases h2 : pop.OpType = ProofOpSimpleMerkleCommitment
    · simp only [h1, h2, if_false, if_true] at h
      have h1' : ¬ ProofOpSimpleMerkleCommitment = ProofOpIAVLCommitment := by decide
      simp only [h1', if_false] at h
      obtain ⟨proof, hu, hop⟩ := hdec lib.TendermintSpec (by simpa only [h2] using h)
      exact ⟨_, proof, Or.inr ⟨h1, h2, rfl⟩, hu, by simpa only [h2] using hop⟩
    · simp [h1, h2] at h

/-- C13. `CommitmentOpDecoder` chooses the proof spec from the op type alone: the
`CommitmentOp` it returns has the type of the `ProofOp`, its spec is `ics23.IavlSpec` for
"ics23:iavl" and `ics23.TendermintSpec` for "ics23:simple", and two `ProofOp`s of the same
type that decode get the same spec, whatever their keys and data. -/
theorem decoder_spec_from_type (lib : Ics23Codec) (pop : ProofOp) (op : CommitmentOp)
    (h : CommitmentOpDecoder lib pop = .ok op) :
    op.OpType = pop.OpType
      ∧ (pop.OpType = "ics23:iavl" → op.Spec = some lib.IavlSpec)
      ∧ (pop.OpType = "ics23:simple" → op.Spec = some lib.TendermintSpec)
      ∧ ∀ pop1 op1, pop1.OpType = pop.OpType → CommitmentOpDecoder lib pop1 = .ok op1 →
          op1.Spec = op.Spec := by
  have hne : ¬ ProofOpSimpleMerkleCommitment = ProofOpIAVLCommitment := by decide
  obtain ⟨spec, proof, hsel, _, rfl⟩ := commitmentOpDecoder_ok lib pop op h
  refine ⟨rfl, ?_, ?_, ?_⟩
  · intro ht
    rcases hsel with ⟨_, rfl⟩ | ⟨hn, _, _⟩
    · rfl
    · exact absurd ht hn
  · intro ht
    rcases hsel with ⟨hi, _⟩ | ⟨_, _, rfl⟩
    · rw [ht] at hi
      exact absurd hi hne
    · rfl
  · intro pop1 op1 hty h1
    obtain ⟨spec1, proof1, hsel1, _, rfl⟩ := commitmentOpDecoder_ok lib pop1 op1 h1
    rw [hty] at hsel1
    show some spec1 = some spec
    rcases hsel with ⟨hi, rfl⟩ | ⟨hn, hs, rfl⟩
    · rcases hsel1 with ⟨_, rfl⟩ | ⟨hn1, _, _⟩
      · rfl
      · exact absurd hi hn1
    · rcases hsel1 with ⟨hi1, _⟩ | ⟨_, _, rfl⟩
      · exact absurd hi1 hn
      · rfl

theorem decoder_spec_from_type_witness :
    demoIavlOp.OpType = ({ OpType := "ics23:iavl", Key := [1], Data := [0, 1, 2, 3] }
        : ProofOp).OpType
      ∧ (({ OpType := "ics23:iavl", Key := [1], Data := [0, 1, 2, 3] } : ProofOp).OpType
          = "ics23:iavl" → demoIavlOp.Spec = some demoCodec.IavlSpec)
      ∧ (({ OpType := "ics23:iavl", Key := [1], Data := [0, 1, 2, 3] } : ProofOp).OpType
          = "ics23:simple" → demoIavlOp.Spec = some demoCodec.TendermintSpec)
      ∧ ∀ pop1 op1,
          pop1.OpType = ({ OpType := "ics23:iavl", Key := [1], Data := [0, 1, 2, 3] }
            : ProofOp).OpType →
          CommitmentOpDecoder demoCodec pop1 = .ok op1 → op1.Spec = demoIavlOp.Spec :=
  decoder_spec_from_type demoCodec { OpType := "ics23:iavl", Key := [1], Data := [0, 1, 2, 3] }
    demoIavlOp rfl

/-- C14. `CommitmentOpDecoder` returns an error exactly for the `ProofOp`s whose type is
neither "ics23:iavl" nor "ics23:simple" (whatever their data) and for those of a supported
type whose data does not unmarshal as a `CommitmentProof`; it succeeds in every other
case. -/
theorem decoder_error_iff (lib : Ics23Codec) (pop : ProofOp) :
    ((∃ e, CommitmentOpDecoder lib pop = .error e) ↔
        (pop.OpType ≠ "ics23:iavl" ∧ pop.OpType ≠ "ics23:simple")
          ∨ lib.Unmarshal pop.Data = none)
      ∧ ((∃ op, CommitmentOpDecoder lib pop = .ok op) ↔
        (pop.OpType = "ics23:iavl" ∨ pop.OpType = "ics23:simple")
          ∧ ∃ proof, lib.Unmarshal pop.Data = some proof) := by
  have hi : ProofOpIAVLCommitment = "ics23:iavl" := rfl
  have hs : ProofOpSimpleMerkleCommitment = "ics23:simple" := rfl
  unfold CommitmentOpDecoder
  rw [hi, hs]
  by_cases h1 : pop.OpType = "ics23:iavl"
  · simp only [h1, if_true]
    cases hu : lib.Unmarshal pop.Data with
    | none => simp
    | some proof => simp
  · by_cases h2 : pop.OpType = "ics23:simple"
    · simp only [h1, h2, if_false, if_true]
      cases hu : lib.Unmarshal pop.Data with
      | none => simp
      | some proof => simp
    · simp [h1, h2]

/-- C15. Decoding undoes encoding of a proof op: for a `CommitmentOp` of type "ics23:iavl"
or "ics23:simple" whose spec is the one mapped from its type and whose proof marshals to
bytes that unmarshal to it again, `ProofOp()` yields a `ProofOp` that
`CommitmentOpDecoder` decodes to the same `CommitmentOp` (same type, key, spec and
proof). -/
theorem decoder_proofOp_roundtrip (lib : Ics23Codec) (op : CommitmentOp)
    (proof : CommitmentProof) (bz : Bytes)
    (htype : op.OpType = "ics23:iavl" ∨ op.OpType = "ics23:simple")
    (hspec : op.Spec
      = some (if op.OpType = "ics23:iavl" then lib.IavlSpec else lib.TendermintSpec))
    (hp : op.Proof = some proof)
    (hm : lib.Marshal proof = some bz)
    (hrt : lib.Unmarshal bz = some proof) :
    ∃ pop, op.ProofOp lib = some pop ∧ CommitmentOpDecoder lib pop = .ok op := by
  have hi : ProofOpIAVLCommitment = "ics23:iavl" := rfl
  have hs : ProofOpSimpleMerkleCommitment = "ics23:simple" := rfl
  refine ⟨{ OpType := op.OpType, Key := op.Key, Data := bz }, ?_, ?_⟩
  · simp [CommitmentOp.ProofOp, hp, hm]
  · cases op with
    | mk opType spec key pr =>
      simp only at htype hspec hp
      subst hp
      rw [hspec]
      unfold CommitmentOpDecoder
      rw [hi, hs]
      rcases htype with rfl | rfl
      · simp [hrt]
      · have hne : ¬ "ics23:simple" = "ics23:iavl" := by decide
        simp [hrt, hne]

theorem decoder_proofOp_roundtrip_witness :
    ∃ pop, demoIavlOp.ProofOp demoCodec = some pop
      ∧ CommitmentOpDecoder demoCodec pop = .ok demoIavlOp :=
  decoder_proofOp_roundtrip demoCodec demoIavlOp
    (.exist { Key := [1], Value := [2], Leaf := [3] }) [0, 1, 2, 3]
    (by decide) (by decide) (by decide) (by decide) (by decide)

/-- The key of the `CommitmentOp` that `CommitmentOpDecoder` returns is the key of the
`ProofOp`, whatever key the unmarshalled proof carries. -/
theorem decoder_key_is_proofOp_key (lib : Ics23Codec) (pop : ProofOp) (op : CommitmentOp)
    (h : CommitmentOpDecoder lib pop = .ok op) : op.GetKey = pop.Key := by
  obtain ⟨_, _, _, _, rfl⟩ := commitmentOpDecoder_ok lib pop op h
  rfl

/-- C16, at the failing input. The `ProofOp` `demoProofOp` has key `[9]` and its data
unmarshals to a proof that carries the key `[1]`; `CommitmentOpDecoder` decodes it to an
op whose key is `[9]`, not the key carried inside the proof. -/
theorem decoder_key_not_from_proof :
    ∃ op proof, CommitmentOpDecoder demoCodec demoProofOp = .ok op
      ∧ demoCodec.Unmarshal demoProofOp.Data = some proof
      ∧ proof.key = some [1]
      ∧ op.GetKey = [9]
      ∧ some op.GetKey ≠ proof.key :=
  ⟨{ OpType := "ics23:iavl", Key := [9], Spec := some demoCodec.IavlSpec,
     Proof := some (.exist { Key := [1], Value := [2], Leaf := [3] }) },
   .exist { Key := [1], Value := [2], Leaf := [3] },
   rfl, by decide, by decide, by decide, by decide⟩

/-! ### The Ethereum header store -/

/-- C23. Reading back what `putBlockHeader` wrote returns it (given that a raw storage item
yields its value, that the bytes of the block number decode to it, and that the
header-index key of the block number is not the current-height key): after
`putBlockHeader(native, h, headerBytes)`, `getCurrentHeaderHeight` returns `h.Number` as
`uint64` and `getPrevHeaderByHeight` at that height returns the JSON decoding of
`headerBytes`, failing only when `headerBytes` does not decode; and on a store with no
current-height record `getCurrentHeaderHeight` returns an error. -/
theorem eth_header_read_back (env : EthEnv) (native : EthNativeService)
    (blockHeader : EthHeader) (headerBytes : Bytes)
    (hraw : ∀ value, env.GetValueFromRawStorageItem (env.GenRawStorageItem value) = some value)
    (hnum : env.GetBytesUint64 (env.GetUint64Bytes (env.Uint64 blockHeader.Number))
      = env.Uint64 blockHeader.Number)
    (hkeys : env.ConcatKey env.HeaderSyncContractAddress
        [env.HEADER_INDEX, env.ETH_CHAIN_ID_BYTE,
         env.GetUint64Bytes (env.Uint64 blockHeader.Number)]
      ≠ env.ConcatKey env.HeaderSyncContractAddress
        [env.CURRENT_HEIGHT, env.ETH_CHAIN_ID_BYTE]) :
    (putBlockHeader env native blockHeader headerBytes).2 = none
      ∧ getCurrentHeaderHeight env (putBlockHeader env native blockHeader headerBytes).1
          = .ok (env.Uint64 blockHeader.Number)
      ∧ getPrevHeaderByHeight env (putBlockHeader env native blockHeader headerBytes).1
            (env.Uint64 blockHeader.Number)
          = (match env.JsonUnmarshal headerBytes with
             | none => .error .deserializeHeader
             | some header => .ok header)
      ∧ ∀ native0 : EthNativeService,
          native0.CacheDB.entries (env.ConcatKey env.HeaderSyncContractAddress
            [env.CURRENT_HEIGHT, env.ETH_CHAIN_ID_BYTE]) = none →
          getCurrentHeaderHeight env native0 = .error .heightStoreNil := by
  have hdb : ∀ n : EthNativeService, ∀ c h, ∀ b : String,
      (notifyPutHeader env n c h b).CacheDB = n.CacheDB := by
    intro n c h b
    unfold notifyPutHeader
    split <;> rfl
  refine ⟨rfl, ?_, ?_, ?_⟩
  · unfold getCurrentHeaderHeight putBlockHeader
    simp only [hdb, RawCacheDB.Get, RawCacheDB.Put, if_true, hraw, hnum]
  · unfold getPrevHeaderByHeight putBlockHeader
    simp only [hdb, RawCacheDB.Get, RawCacheDB.Put, hkeys, if_false, if_true, hraw]
  · intro native0 h0
    unfold getCurrentHeaderHeight
    simp only [RawCacheDB.Get, h0]

theorem eth_header_read_back_witness :
    (putBlockHeader demoEthEnv demoEthNative { Number := 7 } [7]).2 = none
      ∧ getCurrentHeaderHeight demoEthEnv
          (putBlockHeader demoEthEnv demoEthNative { Number := 7 } [7]).1
          = .ok (demoEthEnv.Uint64 7)
      ∧ getPrevHeaderByHeight demoEthEnv
            (putBlockHeader demoEthEnv demoEthNative { Number := 7 } [7]).1
            (demoEthEnv.Uint64 7)
          = (match demoEthEnv.JsonUnmarshal [7] with
             | none => .error .deserializeHeader
             | some header => .ok header)
      ∧ ∀ native0 : EthNativeService,
          native0.CacheDB.entries (demoEthEnv.ConcatKey demoEthEnv.HeaderSyncContractAddress
            [demoEthEnv.CURRENT_HEIGHT, demoEthEnv.ETH_CHAIN_ID_BYTE]) = none →
          getCurrentHeaderHeight demoEthEnv native0 = .error .heightStoreNil :=
  eth_header_read_back demoEthEnv demoEthNative { Number := 7 } [7]
    (fun _ => rfl) (by decide) (by decide)

/-- The header read back in the example is the header with number 7. -/
theorem eth_header_read_back_example :
    getPrevHeaderByHeight demoEthEnv
        (putBlockHeader demoEthEnv demoEthNative { Number := 7 } [7]).1 7
      = .ok { Number := 7 } := by
  rfl

end Poly
